import Mathlib

/-!
Shallow embedding of the CHIP-8 emulation core of this repository.

The engine modelled here is the current core crate, files
src/core/src/lib.rs and src/core/src/instructions.rs.  The repository
also carries two superseded snapshots of the same engine
(src/src/chip8 and src/chip8-core); the chip8-core snapshot is
internally inconsistent (its dispatch calls zero-argument handlers that
its instruction file does not define) and neither snapshot exposes the
external operations the claims are phrased in (tick_timers, set_key,
reset), so the current crate is the code under verification.

Modelling conventions, applied uniformly:
  - machine integers become Nat, with an explicit wrap (mod 256,
    mod 65536) exactly where the Rust code wraps (wrapping_add,
    overflowing_add/sub, u8 shifts);
  - fixed arrays become functions out of Nat; every array access whose
    index is not already forced in range by a 4-bit mask carries the
    same bounds check the Rust runtime performs, and an access the Rust
    program would abort on (index out of bounds, or a debug-mode
    integer underflow/overflow that a bounds check would catch on the
    very next access) is modelled by Option.none, surfaced as
    Outcome.crash;
  - the random byte drawn by opcode CXNN is passed to the step function
    as an oracle argument rnd;
  - plain + on pc inside handlers is kept as Nat +: every handler runs
    on a post-fetch state whose pc is at most 0x1000, so the u16
    addition cannot wrap there.
-/

/-- The 80-byte built-in font set, FONT_SET in src/core/src/lib.rs. -/
def FONT_SET : List Nat :=
  [0xF0, 0x90, 0x90, 0x90, 0xF0,
   0x20, 0x60, 0x20, 0x20, 0x70,
   0xF0, 0x10, 0xF0, 0x80, 0xF0,
   0xF0, 0x10, 0xF0, 0x10, 0xF0,
   0x90, 0x90, 0xF0, 0x10, 0x10,
   0xF0, 0x80, 0xF0, 0x10, 0xF0,
   0xF0, 0x80, 0xF0, 0x90, 0xF0,
   0xF0, 0x10, 0x20, 0x40, 0x40,
   0xF0, 0x90, 0xF0, 0x90, 0xF0,
   0xF0, 0x90, 0xF0, 0x10, 0xF0,
   0xF0, 0x90, 0xF0, 0x90, 0x90,
   0xE0, 0x90, 0xE0, 0x90, 0xE0,
   0xF0, 0x80, 0x80, 0x80, 0xF0,
   0xE0, 0x90, 0x90, 0x90, 0xE0,
   0xF0, 0x80, 0xF0, 0x80, 0xF0,
   0xF0, 0x80, 0xF0, 0x80, 0x80]

/-- Byte a of the font region as laid down by Chip8::new / Chip8::reset. -/
def fontByte (a : Nat) : Nat := FONT_SET.getD a 0

/-- The six configuration booleans, struct Quirks in src/core/src/lib.rs. -/
structure Quirks where
  vf_reset : Bool
  memory : Bool
  clipping : Bool
  shifting : Bool
  jumping : Bool
  release : Bool
deriving DecidableEq

/-- Quirks::new, the defaults selected at construction. -/
def Quirks.new : Quirks :=
  { vf_reset := true, memory := true, clipping := true,
    shifting := false, jumping := false, release := true }

/-- The engine state, struct Chip8 in src/core/src/lib.rs.
memory has 4096 byte cells, registers 16, stack 16 u16 cells,
keys 16 booleans, framebuffer 64*32 = 2048 booleans. -/
structure Chip8 where
  memory : Nat → Nat
  registers : Nat → Nat
  index : Nat
  pc : Nat
  sp : Nat
  stack : Nat → Nat
  delay_timer : Nat
  sound_timer : Nat
  keys : Nat → Bool
  framebuffer : Nat → Bool
  quirks : Quirks
  pressed_key : Option Nat

namespace Chip8

/-- Chip8::new: zeroed state, font copied to memory[0..80), pc = 0x200. -/
def new : Chip8 :=
  { memory := fun a => if a < 80 then fontByte a else 0
    registers := fun _ => 0
    index := 0
    pc := 0x200
    sp := 0
    stack := fun _ => 0
    delay_timer := 0
    sound_timer := 0
    keys := fun _ => false
    framebuffer := fun _ => false
    quirks := Quirks.new
    pressed_key := none }

/-- Chip8::reset: re-zeroes memory, registers, index, pc, sp, stack,
timers, keys and framebuffer and re-copies the font.  The quirks field
and the pressed_key field are not assigned by the Rust function. -/
def reset (s : Chip8) : Chip8 :=
  { s with
    memory := fun a => if a < 80 then fontByte a else 0
    registers := fun _ => 0
    index := 0
    pc := 0x200
    sp := 0
    stack := fun _ => 0
    delay_timer := 0
    sound_timer := 0
    keys := fun _ => false
    framebuffer := fun _ => false }

/-- Chip8::load: copies data into memory[0x200 .. 0x200+len); the Rust
slice copy aborts when the target range leaves the 4096-byte array. -/
def load (s : Chip8) (data : List Nat) : Option Chip8 :=
  if 0x200 + data.length ≤ 4096 then
    some { s with
      memory := fun a =>
        if 0x200 ≤ a ∧ a < 0x200 + data.length then data.getD (a - 0x200) 0
        else s.memory a }
  else none

/-- Chip8::set_key: keys[idx] = pressed; the array access aborts for
idx outside the 16-key pad. -/
def set_key (s : Chip8) (idx : Nat) (pressed : Bool) : Option Chip8 :=
  if idx < 16 then some { s with keys := Function.update s.keys idx pressed }
  else none

/-- Chip8::tick_timers: each timer is decremented when positive. -/
def tick_timers (s : Chip8) : Chip8 :=
  { s with
    delay_timer := if s.delay_timer > 0 then s.delay_timer - 1 else s.delay_timer
    sound_timer := if s.sound_timer > 0 then s.sound_timer - 1 else s.sound_timer }

/-- First nibble of an opcode: (opcode AND 0xF000) SHR 12. -/
def nib1 (opcode : Nat) : Nat := (opcode &&& 0xF000) >>> 12

/-- Second nibble of an opcode (the X register selector). -/
def nib2 (opcode : Nat) : Nat := (opcode &&& 0x0F00) >>> 8

/-- Third nibble of an opcode (the Y register selector). -/
def nib3 (opcode : Nat) : Nat := (opcode &&& 0x00F0) >>> 4

/-- Fourth nibble of an opcode. -/
def nib4 (opcode : Nat) : Nat := opcode &&& 0x000F

/-! Instruction handlers, impl Chip8 in src/core/src/instructions.rs.
Register indices derived by nib2/nib3 are below 16, so the Rust
bounds checks on the 16-entry register file always pass and the
register file is read and written without an Option. -/

/-- 00E0 CLS: framebuffer.fill(false). -/
def op_00e0 (s : Chip8) : Chip8 :=
  { s with framebuffer := fun _ => false }

/-- 00EE RET: sp -= 1; pc = stack[sp].  With sp = 0 the u8 subtraction
underflows (debug abort; in release it wraps to 255 and the stack
access aborts), and with sp - 1 outside the 16-entry stack the read
aborts. -/
def op_00ee (s : Chip8) : Option Chip8 :=
  if s.sp = 0 then none
  else if s.sp - 1 < 16 then some { s with sp := s.sp - 1, pc := s.stack (s.sp - 1) }
  else none

/-- 1NNN JP addr. -/
def op_1nnn (s : Chip8) (opcode : Nat) : Chip8 :=
  { s with pc := opcode &&& 0x0FFF }

/-- 2NNN CALL addr: stack[sp] = pc; sp += 1; pc = NNN.  The stack
write aborts when sp is at or beyond the 16 entries. -/
def op_2nnn (s : Chip8) (opcode : Nat) : Option Chip8 :=
  if s.sp < 16 then
    some { s with
      stack := Function.update s.stack s.sp s.pc
      sp := s.sp + 1
      pc := opcode &&& 0x0FFF }
  else none

/-- 3XNN SE Vx, byte. -/
def op_3xkk (s : Chip8) (opcode : Nat) : Chip8 :=
  if s.registers (nib2 opcode) = (opcode &&& 0x00FF) then { s with pc := s.pc + 2 } else s

/-- 4XNN SNE Vx, byte. -/
def op_4xkk (s : Chip8) (opcode : Nat) : Chip8 :=
  if s.registers (nib2 opcode) ≠ (opcode &&& 0x00FF) then { s with pc := s.pc + 2 } else s

/-- 5XY0 SE Vx, Vy. -/
def op_5xy0 (s : Chip8) (opcode : Nat) : Chip8 :=
  if s.registers (nib2 opcode) = s.registers (nib3 opcode) then { s with pc := s.pc + 2 } else s

/-- 6XNN LD Vx, byte. -/
def op_6xkk (s : Chip8) (opcode : Nat) : Chip8 :=
  { s with registers := Function.update s.registers (nib2 opcode) (opcode &&& 0x00FF) }

/-- 7XNN ADD Vx, byte: wrapping_add on u8. -/
def op_7xkk (s : Chip8) (opcode : Nat) : Chip8 :=
  { s with registers := (Function.update s.registers (nib2 opcode)
      ((s.registers (nib2 opcode) + (opcode &&& 0x00FF)) % 256)) }

/-- 8XY0 LD Vx, Vy. -/
def op_8xy0 (s : Chip8) (opcode : Nat) : Chip8 :=
  { s with registers := Function.update s.registers (nib2 opcode) (s.registers (nib3 opcode)) }

/-- 8XY1 OR Vx, Vy; with the vf_reset quirk VF is zeroed first. -/
def op_8xy1 (s : Chip8) (opcode : Nat) : Chip8 :=
  let r0 := if s.quirks.vf_reset then Function.update s.registers 0xF 0 else s.registers
  { s with registers := Function.update r0 (nib2 opcode) (r0 (nib2 opcode) ||| r0 (nib3 opcode)) }

/-- 8XY2 AND Vx, Vy; with the vf_reset quirk VF is zeroed first. -/
def op_8xy2 (s : Chip8) (opcode : Nat) : Chip8 :=
  let r0 := if s.quirks.vf_reset then Function.update s.registers 0xF 0 else s.registers
  { s with registers := Function.update r0 (nib2 opcode) (r0 (nib2 opcode) &&& r0 (nib3 opcode)) }

/-- 8XY3 XOR Vx, Vy; with the vf_reset quirk VF is zeroed first. -/
def op_8xy3 (s : Chip8) (opcode : Nat) : Chip8 :=
  let r0 := if s.quirks.vf_reset then Function.update s.registers 0xF 0 else s.registers
  { s with registers := Function.update r0 (nib2 opcode) (r0 (nib2 opcode) ^^^ r0 (nib3 opcode)) }

/-- 8XY4 ADD Vx, Vy: overflowing_add; Vx gets the wrapped sum, then
VF gets the carry (so the carry overwrites the sum when X = 0xF). -/
def op_8xy4 (s : Chip8) (opcode : Nat) : Chip8 :=
  let a := s.registers (nib2 opcode)
  let b := s.registers (nib3 opcode)
  { s with registers :=
      (Function.update (Function.update s.registers (nib2 opcode) ((a + b) % 256)) 0xF
        (if 256 ≤ a + b then 1 else 0)) }

/-- 8XY5 SUB Vx, Vy: overflowing_sub; VF = 0 on borrow, 1 otherwise,
written after the difference. -/
def op_8xy5 (s : Chip8) (opcode : Nat) : Chip8 :=
  let a := s.registers (nib2 opcode)
  let b := s.registers (nib3 opcode)
  { s with registers :=
      (Function.update
        (Function.update s.registers (nib2 opcode) (if a < b then a + 256 - b else a - b)) 0xF
        (if a < b then 0 else 1)) }

/-- 8XY6 SHR: without the shifting quirk Vx is first overwritten by Vy;
VF receives the pre-shift low bit, written after the shift. -/
def op_8xy6 (s : Chip8) (opcode : Nat) : Chip8 :=
  let r0 := if s.quirks.shifting then s.registers
            else Function.update s.registers (nib2 opcode) (s.registers (nib3 opcode))
  let new_vf := r0 (nib2 opcode) &&& 0x1
  { s with registers :=
      (Function.update (Function.update r0 (nib2 opcode) (r0 (nib2 opcode) >>> 1)) 0xF new_vf) }

/-- 8XY7 SUBN Vx, Vy: Vx = Vy - Vx; VF = 0 on borrow, 1 otherwise. -/
def op_8xy7 (s : Chip8) (opcode : Nat) : Chip8 :=
  let a := s.registers (nib2 opcode)
  let b := s.registers (nib3 opcode)
  { s with registers :=
      (Function.update
        (Function.update s.registers (nib2 opcode) (if b < a then b + 256 - a else b - a)) 0xF
        (if b < a then 0 else 1)) }

/-- 8XYE SHL: without the shifting quirk Vx is first overwritten by Vy;
VF receives the pre-shift high bit; the u8 left shift wraps mod 256. -/
def op_8xye (s : Chip8) (opcode : Nat) : Chip8 :=
  let r0 := if s.quirks.shifting then s.registers
            else Function.update s.registers (nib2 opcode) (s.registers (nib3 opcode))
  let new_vf := (r0 (nib2 opcode) >>> 7) &&& 0x1
  { s with registers :=
      (Function.update (Function.update r0 (nib2 opcode) ((r0 (nib2 opcode) <<< 1) % 256)) 0xF
        new_vf) }

/-- 9XY0 SNE Vx, Vy. -/
def op_9xy0 (s : Chip8) (opcode : Nat) : Chip8 :=
  if s.registers (nib2 opcode) ≠ s.registers (nib3 opcode) then { s with pc := s.pc + 2 } else s

/-- ANNN LD I, addr. -/
def op_annn (s : Chip8) (opcode : Nat) : Chip8 :=
  { s with index := opcode &&& 0x0FFF }

/-- BNNN JP V0, addr; with the jumping quirk the register is selected
by the high nibble of NNN instead of V0. -/
def op_bnnn (s : Chip8) (opcode : Nat) : Chip8 :=
  if s.quirks.jumping then { s with pc := (opcode &&& 0x0FFF) + s.registers (nib2 opcode) }
  else { s with pc := s.registers 0 + (opcode &&& 0x0FFF) }

/-- CXNN RND Vx, byte: Vx = random_byte AND NN; the random byte is the
oracle argument rnd reduced to a byte. -/
def op_cxkk (s : Chip8) (opcode rnd : Nat) : Chip8 :=
  { s with registers := (Function.update s.registers (nib2 opcode)
      ((rnd % 256) &&& (opcode &&& 0x00FF))) }

/-- Inner column loop of DXYN over a list of column numbers:
with the clipping quirk the loop breaks at the first column falling off
the right edge; where the sprite bit is set, the collision accumulator
picks up the old pixel and the pixel is toggled. -/
def drawColsAux (clip : Bool) (xPos wy sb : Nat) :
    List Nat → (Nat → Bool) → Bool → (Nat → Bool) × Bool
  | [], fb, flipped => (fb, flipped)
  | c :: rest, fb, flipped =>
    if clip = true ∧ 64 ≤ xPos + c then (fb, flipped)
    else if sb &&& (0x80 >>> c) ≠ 0 then
      let idx := (xPos + c) % 64 + 64 * wy
      drawColsAux clip xPos wy sb rest (Function.update fb idx (!fb idx)) (flipped || fb idx)
    else drawColsAux clip xPos wy sb rest fb flipped

/-- Outer row loop of DXYN over a list of row numbers: each row first
reads its sprite byte (aborting outside the 4096-byte memory), then
with the clipping quirk breaks at the first row falling off the bottom
edge, then runs the 8-column inner loop. -/
def drawRowsAux (clip : Bool) (xPos yPos index : Nat) (mem : Nat → Nat) :
    List Nat → (Nat → Bool) → Bool → Option ((Nat → Bool) × Bool)
  | [], fb, flipped => some (fb, flipped)
  | r :: rest, fb, flipped =>
    if index + r < 4096 then
      let sb := mem (index + r)
      if clip = true ∧ 32 ≤ yPos + r then some (fb, flipped)
      else
        let p := drawColsAux clip xPos ((yPos + r) % 32) sb (List.range 8) fb flipped
        drawRowsAux clip xPos yPos index mem rest p.1 p.2
    else none

/-- DXYN DRW Vx, Vy, nibble: the start position wraps to the 64 x 32
grid unconditionally; rows and columns are drawn by the loops above;
after the loops VF is set to 1 exactly when some toggle hit a pixel
that was set at the moment of the toggle. -/
def op_dxyn (s : Chip8) (opcode : Nat) : Option Chip8 :=
  match drawRowsAux s.quirks.clipping (s.registers (nib2 opcode) % 64)
      (s.registers (nib3 opcode) % 32) s.index s.memory
      (List.range (nib4 opcode)) s.framebuffer false with
  | some p => some { s with
      framebuffer := p.1
      registers := Function.update s.registers 0xF (if p.2 then 1 else 0) }
  | none => none

/-- The pixel cell hit by sprite row r, column c, for a draw starting
at (xPos, yPos): coordinates wrap to the 64 x 32 grid, row-major. -/
def pixAt (xPos yPos r c : Nat) : Nat := (xPos + c) % 64 + 64 * ((yPos + r) % 32)

/-- Columns of one sprite row (from the list cs) that actually toggle
pixel j: the column survives clipping, its sprite bit is set, and its
target cell is j. -/
def colHit (clip : Bool) (xPos wy sb : Nat) (cs : List Nat) (j : Nat) : Bool :=
  cs.any fun c =>
    (!clip || decide (xPos + c < 64)) && (sb &&& (0x80 >>> c) != 0) &&
      ((xPos + c) % 64 + 64 * wy == j)

/-- Whether one sprite row (columns cs) toggles some pixel that is set
in the framebuffer fb. -/
def colColl (clip : Bool) (xPos wy sb : Nat) (cs : List Nat) (fb : Nat → Bool) : Bool :=
  cs.any fun c =>
    (!clip || decide (xPos + c < 64)) && (sb &&& (0x80 >>> c) != 0) &&
      fb ((xPos + c) % 64 + 64 * wy)

/-- Sprite cells (rows from rs, all 8 columns) that toggle pixel j. -/
def rowHit (clip : Bool) (xPos yPos index : Nat) (mem : Nat → Nat) (rs : List Nat)
    (j : Nat) : Bool :=
  rs.any fun r =>
    (!clip || decide (yPos + r < 32)) &&
      colHit clip xPos ((yPos + r) % 32) (mem (index + r)) (List.range 8) j

/-- Whether the sprite (rows rs) toggles some pixel set in fb. -/
def rowColl (clip : Bool) (xPos yPos index : Nat) (mem : Nat → Nat) (rs : List Nat)
    (fb : Nat → Bool) : Bool :=
  rs.any fun r =>
    (!clip || decide (yPos + r < 32)) &&
      colColl clip xPos ((yPos + r) % 32) (mem (index + r)) (List.range 8) fb

/-- The toggle mask of a DXYN draw from state s: pixel j is toggled
exactly when some surviving sprite bit targets it. -/
def spriteHit (s : Chip8) (opcode j : Nat) : Bool :=
  rowHit s.quirks.clipping (s.registers (nib2 opcode) % 64) (s.registers (nib3 opcode) % 32)
    s.index s.memory (List.range (nib4 opcode)) j

/-- Whether a DXYN draw from state s toggles some pixel that is set in
the framebuffer of s (the collision condition). -/
def spriteColl (s : Chip8) (opcode : Nat) : Bool :=
  rowColl s.quirks.clipping (s.registers (nib2 opcode) % 64) (s.registers (nib3 opcode) % 32)
    s.index s.memory (List.range (nib4 opcode)) s.framebuffer

/-- EX9E SKP Vx: the key index is the full value of Vx, so the keypad
access aborts when Vx is 16 or more. -/
def op_ex9e (s : Chip8) (opcode : Nat) : Option Chip8 :=
  if s.registers (nib2 opcode) < 16 then
    some (if s.keys (s.registers (nib2 opcode)) then { s with pc := s.pc + 2 } else s)
  else none

/-- EXA1 SKNP Vx: as EX9E with the test negated. -/
def op_exa1 (s : Chip8) (opcode : Nat) : Option Chip8 :=
  if s.registers (nib2 opcode) < 16 then
    some (if s.keys (s.registers (nib2 opcode)) then s else { s with pc := s.pc + 2 })
  else none

/-- FX07 LD Vx, DT. -/
def op_fx07 (s : Chip8) (opcode : Nat) : Chip8 :=
  { s with registers := Function.update s.registers (nib2 opcode) s.delay_timer }

/-- First phase of FX0A: unless the release quirk already holds a
latched key, scan keys 0..15 in ascending order; the first pressed key
index is stored into Vx and latched, and without the release quirk this
completes the opcode.  Returns the mutated state and the done flag. -/
def fx0aScan (s : Chip8) (opcode : Nat) : Chip8 × Bool :=
  if s.quirks.release = false ∨ s.pressed_key = none then
    match (List.range 16).find? s.keys with
    | some i =>
        ({ s with registers := Function.update s.registers (nib2 opcode) i
                  pressed_key := some i },
         !s.quirks.release)
    | none => (s, false)
  else (s, false)

/-- Second phase of FX0A: with the release quirk, when the latched key
is now up the latch clears and the opcode completes.  The keypad access
inside is_some_and aborts for a latched index outside the pad. -/
def fx0aRelease (q : Chip8 × Bool) : Option (Chip8 × Bool) :=
  if q.1.quirks.release then
    match q.1.pressed_key with
    | some val =>
        if val < 16 then
          if q.1.keys val = false then some ({ q.1 with pressed_key := none }, true)
          else some q
        else none
    | none => some q
  else some q

/-- FX0A LD Vx, K, the multi-cycle blocking key read: the two phases
above, then, if the opcode did not complete, the pc rewind by 2 that
makes the next cycle re-fetch this opcode (the rewind would underflow
below 2; pc is at least 2 after any successful fetch). -/
def op_fx0a (s : Chip8) (opcode : Nat) : Option Chip8 :=
  (fx0aRelease (fx0aScan s opcode)).bind fun q =>
    if q.2 then some q.1
    else if 2 ≤ q.1.pc then some { q.1 with pc := q.1.pc - 2 } else none

/-- FX15 LD DT, Vx. -/
def op_fx15 (s : Chip8) (opcode : Nat) : Chip8 :=
  { s with delay_timer := s.registers (nib2 opcode) }

/-- FX18 LD ST, Vx. -/
def op_fx18 (s : Chip8) (opcode : Nat) : Chip8 :=
  { s with sound_timer := s.registers (nib2 opcode) }

/-- FX1E ADD I, Vx: wrapping_add on u16, no mask to 12 bits. -/
def op_fx1e (s : Chip8) (opcode : Nat) : Chip8 :=
  { s with index := (s.index + s.registers (nib2 opcode)) % 65536 }

/-- FX29 LD F, Vx: index = Vx * 5, with the full byte of Vx. -/
def op_fx29 (s : Chip8) (opcode : Nat) : Chip8 :=
  { s with index := s.registers (nib2 opcode) * 5 }

/-- FX33 LD B, Vx: BCD of Vx at memory[index..index+2]; the first
write (ones place, at index + 2) aborts when it leaves memory, hence
the single bound index + 2 < 4096 decides abortion. -/
def op_fx33 (s : Chip8) (opcode : Nat) : Option Chip8 :=
  if s.index + 2 < 4096 then
    let value := s.registers (nib2 opcode)
    some { s with memory :=
      (Function.update
        (Function.update
          (Function.update s.memory (s.index + 2) (value % 10))
          (s.index + 1) (value / 10 % 10))
        s.index (value / 100 % 10)) }
  else none

/-- FX55 LD [I], Vx: memory[index + i] = Vi for i in 0..=X, aborting at
the first write outside memory; with the memory quirk the index then
advances past the copied range. -/
def op_fx55 (s : Chip8) (opcode : Nat) : Option Chip8 :=
  if s.index + nib2 opcode < 4096 then
    some { s with
      memory := ((List.range (nib2 opcode + 1)).foldl
        (fun m i => Function.update m (s.index + i) (s.registers i)) s.memory)
      index := if s.quirks.memory then s.index + nib2 opcode + 1 else s.index }
  else none

/-- FX65 LD Vx, [I]: Vi = memory[index + i] for i in 0..=X, aborting at
the first read outside memory; with the memory quirk the index then
advances past the copied range. -/
def op_fx65 (s : Chip8) (opcode : Nat) : Option Chip8 :=
  if s.index + nib2 opcode < 4096 then
    some { s with
      registers := ((List.range (nib2 opcode + 1)).foldl
        (fun r i => Function.update r i (s.memory (s.index + i))) s.registers)
      index := if s.quirks.memory then s.index + nib2 opcode + 1 else s.index }
  else none

/-- The 34 operations of the dispatch in Chip8::execute, plus the
fall-through arm. -/
inductive Instr where
  | i00e0 | i00ee | i1nnn | i2nnn | i3xkk | i4xkk | i5xy0 | i6xkk | i7xkk
  | i8xy0 | i8xy1 | i8xy2 | i8xy3 | i8xy4 | i8xy5 | i8xy6 | i8xy7 | i8xye
  | i9xy0 | iannn | ibnnn | icxkk | idxyn | iex9e | iexa1
  | ifx07 | ifx0a | ifx15 | ifx18 | ifx1e | ifx29 | ifx33 | ifx55 | ifx65
  | iundefined
deriving DecidableEq

/-- The nibble-tuple match of Chip8::execute, arm by arm and in source
order.  Note the asymmetry taken from the source: every 5XY* opcode
dispatches to op_5xy0, while 9XY* requires a final nibble of 0. -/
def decode (opcode : Nat) : Instr :=
  if nib1 opcode = 0x0 ∧ nib2 opcode = 0x0 ∧ nib3 opcode = 0xE ∧ nib4 opcode = 0x0 then .i00e0
  else if nib1 opcode = 0x0 ∧ nib2 opcode = 0x0 ∧ nib3 opcode = 0xE ∧ nib4 opcode = 0xE then .i00ee
  else if nib1 opcode = 0x1 then .i1nnn
  else if nib1 opcode = 0x2 then .i2nnn
  else if nib1 opcode = 0x3 then .i3xkk
  else if nib1 opcode = 0x4 then .i4xkk
  else if nib1 opcode = 0x5 then .i5xy0
  else if nib1 opcode = 0x6 then .i6xkk
  else if nib1 opcode = 0x7 then .i7xkk
  else if nib1 opcode = 0x8 ∧ nib4 opcode = 0x0 then .i8xy0
  else if nib1 opcode = 0x8 ∧ nib4 opcode = 0x1 then .i8xy1
  else if nib1 opcode = 0x8 ∧ nib4 opcode = 0x2 then .i8xy2
  else if nib1 opcode = 0x8 ∧ nib4 opcode = 0x3 then .i8xy3
  else if nib1 opcode = 0x8 ∧ nib4 opcode = 0x4 then .i8xy4
  else if nib1 opcode = 0x8 ∧ nib4 opcode = 0x5 then .i8xy5
  else if nib1 opcode = 0x8 ∧ nib4 opcode = 0x6 then .i8xy6
  else if nib1 opcode = 0x8 ∧ nib4 opcode = 0x7 then .i8xy7
  else if nib1 opcode = 0x8 ∧ nib4 opcode = 0xE then .i8xye
  else if nib1 opcode = 0x9 ∧ nib4 opcode = 0x0 then .i9xy0
  else if nib1 opcode = 0xA then .iannn
  else if nib1 opcode = 0xB then .ibnnn
  else if nib1 opcode = 0xC then .icxkk
  else if nib1 opcode = 0xD then .idxyn
  else if nib1 opcode = 0xE ∧ nib3 opcode = 0x9 ∧ nib4 opcode = 0xE then .iex9e
  else if nib1 opcode = 0xE ∧ nib3 opcode = 0xA ∧ nib4 opcode = 0x1 then .iexa1
  else if nib1 opcode = 0xF ∧ nib3 opcode = 0x0 ∧ nib4 opcode = 0x7 then .ifx07
  else if nib1 opcode = 0xF ∧ nib3 opcode = 0x0 ∧ nib4 opcode = 0xA then .ifx0a
  else if nib1 opcode = 0xF ∧ nib3 opcode = 0x1 ∧ nib4 opcode = 0x5 then .ifx15
  else if nib1 opcode = 0xF ∧ nib3 opcode = 0x1 ∧ nib4 opcode = 0x8 then .ifx18
  else if nib1 opcode = 0xF ∧ nib3 opcode = 0x1 ∧ nib4 opcode = 0xE then .ifx1e
  else if nib1 opcode = 0xF ∧ nib3 opcode = 0x2 ∧ nib4 opcode = 0x9 then .ifx29
  else if nib1 opcode = 0xF ∧ nib3 opcode = 0x3 ∧ nib4 opcode = 0x3 then .ifx33
  else if nib1 opcode = 0xF ∧ nib3 opcode = 0x5 ∧ nib4 opcode = 0x5 then .ifx55
  else if nib1 opcode = 0xF ∧ nib3 opcode = 0x6 ∧ nib4 opcode = 0x5 then .ifx65
  else .iundefined

/-- An opcode is defined when some dispatch arm matches it. -/
def definedOp (opcode : Nat) : Prop := decode opcode ≠ Instr.iundefined

instance (opcode : Nat) : Decidable (definedOp opcode) := by
  unfold definedOp
  infer_instance

/-- Result of one engine cycle: a successful new state, the single core
error kind ExecuteError::UndefinedInstruction carrying the fetched
opcode together with the state the error leaves behind, or an abort of
the Rust program (panic).  -/
inductive Outcome where
  | ok (s : Chip8)
  | undefined (opcode : Nat) (s : Chip8)
  | crash

/-- Lifts a fallible handler result into an Outcome. -/
def ofOpt : Option Chip8 → Outcome
  | some s => .ok s
  | none => .crash

/-- Chip8::execute: dispatch on the decoded arm.  The fall-through arm
returns Err(UndefinedInstruction(opcode)) leaving the state as is. -/
def execute (s : Chip8) (rnd opcode : Nat) : Outcome :=
  match decode opcode with
  | .i00e0 => .ok (op_00e0 s)
  | .i00ee => ofOpt (op_00ee s)
  | .i1nnn => .ok (op_1nnn s opcode)
  | .i2nnn => ofOpt (op_2nnn s opcode)
  | .i3xkk => .ok (op_3xkk s opcode)
  | .i4xkk => .ok (op_4xkk s opcode)
  | .i5xy0 => .ok (op_5xy0 s opcode)
  | .i6xkk => .ok (op_6xkk s opcode)
  | .i7xkk => .ok (op_7xkk s opcode)
  | .i8xy0 => .ok (op_8xy0 s opcode)
  | .i8xy1 => .ok (op_8xy1 s opcode)
  | .i8xy2 => .ok (op_8xy2 s opcode)
  | .i8xy3 => .ok (op_8xy3 s opcode)
  | .i8xy4 => .ok (op_8xy4 s opcode)
  | .i8xy5 => .ok (op_8xy5 s opcode)
  | .i8xy6 => .ok (op_8xy6 s opcode)
  | .i8xy7 => .ok (op_8xy7 s opcode)
  | .i8xye => .ok (op_8xye s opcode)
  | .i9xy0 => .ok (op_9xy0 s opcode)
  | .iannn => .ok (op_annn s opcode)
  | .ibnnn => .ok (op_bnnn s opcode)
  | .icxkk => .ok (op_cxkk s opcode rnd)
  | .idxyn => ofOpt (op_dxyn s opcode)
  | .iex9e => ofOpt (op_ex9e s opcode)
  | .iexa1 => ofOpt (op_exa1 s opcode)
  | .ifx07 => .ok (op_fx07 s opcode)
  | .ifx0a => ofOpt (op_fx0a s opcode)
  | .ifx15 => .ok (op_fx15 s opcode)
  | .ifx18 => .ok (op_fx18 s opcode)
  | .ifx1e => .ok (op_fx1e s opcode)
  | .ifx29 => .ok (op_fx29 s opcode)
  | .ifx33 => ofOpt (op_fx33 s opcode)
  | .ifx55 => ofOpt (op_fx55 s opcode)
  | .ifx65 => ofOpt (op_fx65 s opcode)
  | .iundefined => .undefined opcode s

/-- The big-endian opcode assembled from memory[pc] and memory[pc+1]. -/
def opcodeAt (s : Chip8) : Nat := (s.memory s.pc <<< 8) ||| s.memory (s.pc + 1)

/-- Chip8::fetch: reads the two bytes at pc (aborting outside the
4096-byte memory) and advances pc by 2 before dispatch. -/
def fetch (s : Chip8) : Option (Nat × Chip8) :=
  if s.pc + 1 < 4096 then some (opcodeAt s, { s with pc := s.pc + 2 })
  else none

/-- Chip8::emulate, the per-cycle step: fetch, then decode and
execute. -/
def emulate (s : Chip8) (rnd : Nat) : Outcome :=
  match fetch s with
  | some (opcode, s1) => execute s1 rnd opcode
  | none => .crash

/-- Extracts the state of a successful step. -/
def stepOk : Outcome → Option Chip8
  | .ok s => some s
  | _ => none

/-- The font region invariant: the 80 bytes below 0x50 hold the
built-in font set. -/
def fontIntact (s : Chip8) : Prop := ∀ a < 80, s.memory a = fontByte a

instance (s : Chip8) : Decidable (fontIntact s) := by
  unfold fontIntact
  infer_instance

end Chip8

open Chip8

/-! Small facts about Outcome and ofOpt shared by several claims. -/

theorem ofOpt_eq_ok {x : Option Chip8} {t : Chip8} : ofOpt x = Outcome.ok t ↔ x = some t := by
  cases x <;> simp [ofOpt]

theorem ofOpt_ne_undefined (x : Option Chip8) (o : Nat) (t : Chip8) :
    ofOpt x ≠ Outcome.undefined o t := by
  cases x <;> simp [ofOpt]

/-! Frame lemmas: the fields each fallible handler leaves untouched on
success.  The pure handlers are unfolded where needed. -/

theorem op_00ee_some {s t : Chip8} (h : op_00ee s = some t) :
    t.memory = s.memory ∧ t.registers = s.registers ∧ t.index = s.index ∧
    t.stack = s.stack ∧ t.delay_timer = s.delay_timer ∧ t.sound_timer = s.sound_timer ∧
    t.keys = s.keys ∧ t.framebuffer = s.framebuffer ∧ t.quirks = s.quirks ∧
    t.pressed_key = s.pressed_key := by
  unfold op_00ee at h
  split_ifs at h
  injection h with h'
  subst h'
  exact ⟨rfl, rfl, rfl, rfl, rfl, rfl, rfl, rfl, rfl, rfl⟩

theorem op_2nnn_some {s t : Chip8} {op : Nat} (h : op_2nnn s op = some t) :
    t.memory = s.memory ∧ t.registers = s.registers ∧ t.index = s.index ∧
    t.delay_timer = s.delay_timer ∧ t.sound_timer = s.sound_timer ∧
    t.keys = s.keys ∧ t.framebuffer = s.framebuffer ∧ t.quirks = s.quirks ∧
    t.pressed_key = s.pressed_key ∧ t.pc = (op &&& 0x0FFF) := by
  unfold op_2nnn at h
  split_ifs at h
  injection h with h'
  subst h'
  exact ⟨rfl, rfl, rfl, rfl, rfl, rfl, rfl, rfl, rfl, rfl⟩

theorem op_ex9e_some {s t : Chip8} {op : Nat} (h : op_ex9e s op = some t) :
    t.memory = s.memory ∧ t.registers = s.registers ∧ t.index = s.index ∧
    t.sp = s.sp ∧ t.stack = s.stack ∧ t.delay_timer = s.delay_timer ∧
    t.sound_timer = s.sound_timer ∧ t.keys = s.keys ∧ t.framebuffer = s.framebuffer ∧
    t.quirks = s.quirks ∧ t.pressed_key = s.pressed_key ∧
    (t.pc = s.pc ∨ t.pc = s.pc + 2) := by
  unfold op_ex9e at h
  split_ifs at h <;> injection h with h' <;> subst h'
  · exact ⟨rfl, rfl, rfl, rfl, rfl, rfl, rfl, rfl, rfl, rfl, rfl, Or.inr rfl⟩
  · exact ⟨rfl, rfl, rfl, rfl, rfl, rfl, rfl, rfl, rfl, rfl, rfl, Or.inl rfl⟩

theorem op_exa1_some {s t : Chip8} {op : Nat} (h : op_exa1 s op = some t) :
    t.memory = s.memory ∧ t.registers = s.registers ∧ t.index = s.index ∧
    t.sp = s.sp ∧ t.stack = s.stack ∧ t.delay_timer = s.delay_timer ∧
    t.sound_timer = s.sound_timer ∧ t.keys = s.keys ∧ t.framebuffer = s.framebuffer ∧
    t.quirks = s.quirks ∧ t.pressed_key = s.pressed_key ∧
    (t.pc = s.pc ∨ t.pc = s.pc + 2) := by
  unfold op_exa1 at h
  split_ifs at h <;> injection h with h' <;> subst h'
  · exact ⟨rfl, rfl, rfl, rfl, rfl, rfl, rfl, rfl, rfl, rfl, rfl, Or.inl rfl⟩
  · exact ⟨rfl, rfl, rfl, rfl, rfl, rfl, rfl, rfl, rfl, rfl, rfl, Or.inr rfl⟩

theorem op_dxyn_some {s t : Chip8} {op : Nat} (h : op_dxyn s op = some t) :
    t.memory = s.memory ∧ t.index = s.index ∧ t.pc = s.pc ∧ t.sp = s.sp ∧
    t.stack = s.stack ∧ t.delay_timer = s.delay_timer ∧ t.sound_timer = s.sound_timer ∧
    t.keys = s.keys ∧ t.quirks = s.quirks ∧ t.pressed_key = s.pressed_key := by
  unfold op_dxyn at h
  split at h
  · injection h with h'
    subst h'
    exact ⟨rfl, rfl, rfl, rfl, rfl, rfl, rfl, rfl, rfl, rfl⟩
  · exact Option.noConfusion h

theorem op_fx33_some {s t : Chip8} {op : Nat} (h : op_fx33 s op = some t) :
    t.registers = s.registers ∧ t.index = s.index ∧ t.pc = s.pc ∧ t.sp = s.sp ∧
    t.stack = s.stack ∧ t.delay_timer = s.delay_timer ∧ t.sound_timer = s.sound_timer ∧
    t.keys = s.keys ∧ t.framebuffer = s.framebuffer ∧ t.quirks = s.quirks ∧
    t.pressed_key = s.pressed_key := by
  unfold op_fx33 at h
  split_ifs at h
  injection h with h'
  subst h'
  exact ⟨rfl, rfl, rfl, rfl, rfl, rfl, rfl, rfl, rfl, rfl, rfl⟩

theorem op_fx55_some {s t : Chip8} {op : Nat} (h : op_fx55 s op = some t) :
    t.registers = s.registers ∧ t.pc = s.pc ∧ t.sp = s.sp ∧ t.stack = s.stack ∧
    t.delay_timer = s.delay_timer ∧ t.sound_timer = s.sound_timer ∧ t.keys = s.keys ∧
    t.framebuffer = s.framebuffer ∧ t.quirks = s.quirks ∧ t.pressed_key = s.pressed_key := by
  unfold op_fx55 at h
  split_ifs at h <;> injection h with h' <;> subst h' <;>
    exact ⟨rfl, rfl, rfl, rfl, rfl, rfl, rfl, rfl, rfl, rfl⟩

theorem op_fx65_some {s t : Chip8} {op : Nat} (h : op_fx65 s op = some t) :
    t.memory = s.memory ∧ t.pc = s.pc ∧ t.sp = s.sp ∧ t.stack = s.stack ∧
    t.delay_timer = s.delay_timer ∧ t.sound_timer = s.sound_timer ∧ t.keys = s.keys ∧
    t.framebuffer = s.framebuffer ∧ t.quirks = s.quirks ∧ t.pressed_key = s.pressed_key := by
  unfold op_fx65 at h
  split_ifs at h <;> injection h with h' <;> subst h' <;>
    exact ⟨rfl, rfl, rfl, rfl, rfl, rfl, rfl, rfl, rfl, rfl⟩

theorem fx0aScan_fst {s : Chip8} {op : Nat} :
    (fx0aScan s op).1.memory = s.memory ∧ (fx0aScan s op).1.index = s.index ∧
    (fx0aScan s op).1.pc = s.pc ∧ (fx0aScan s op).1.sp = s.sp ∧
    (fx0aScan s op).1.stack = s.stack ∧
    (fx0aScan s op).1.delay_timer = s.delay_timer ∧
    (fx0aScan s op).1.sound_timer = s.sound_timer ∧
    (fx0aScan s op).1.keys = s.keys ∧
    (fx0aScan s op).1.framebuffer = s.framebuffer ∧
    (fx0aScan s op).1.quirks = s.quirks := by
  unfold fx0aScan
  split
  · split
    · exact ⟨rfl, rfl, rfl, rfl, rfl, rfl, rfl, rfl, rfl, rfl⟩
    · exact ⟨rfl, rfl, rfl, rfl, rfl, rfl, rfl, rfl, rfl, rfl⟩
  · exact ⟨rfl, rfl, rfl, rfl, rfl, rfl, rfl, rfl, rfl, rfl⟩

theorem fx0aRelease_some {q q' : Chip8 × Bool} (h : fx0aRelease q = some q') :
    q'.1.memory = q.1.memory ∧ q'.1.registers = q.1.registers ∧
    q'.1.index = q.1.index ∧ q'.1.pc = q.1.pc ∧ q'.1.sp = q.1.sp ∧
    q'.1.stack = q.1.stack ∧ q'.1.delay_timer = q.1.delay_timer ∧
    q'.1.sound_timer = q.1.sound_timer ∧ q'.1.keys = q.1.keys ∧
    q'.1.framebuffer = q.1.framebuffer ∧ q'.1.quirks = q.1.quirks := by
  unfold fx0aRelease at h
  split at h
  · split at h
    · split_ifs at h
      · injection h with h'
        subst h'
        exact ⟨rfl, rfl, rfl, rfl, rfl, rfl, rfl, rfl, rfl, rfl, rfl⟩
      · injection h with h'
        subst h'
        exact ⟨rfl, rfl, rfl, rfl, rfl, rfl, rfl, rfl, rfl, rfl, rfl⟩
    · injection h with h'
      subst h'
      exact ⟨rfl, rfl, rfl, rfl, rfl, rfl, rfl, rfl, rfl, rfl, rfl⟩
  · injection h with h'
    subst h'
    exact ⟨rfl, rfl, rfl, rfl, rfl, rfl, rfl, rfl, rfl, rfl, rfl⟩

theorem op_fx0a_some {s t : Chip8} {op : Nat} (h : op_fx0a s op = some t) :
    t.memory = s.memory ∧ t.index = s.index ∧ t.sp = s.sp ∧ t.stack = s.stack ∧
    t.delay_timer = s.delay_timer ∧ t.sound_timer = s.sound_timer ∧
    t.keys = s.keys ∧ t.framebuffer = s.framebuffer ∧ t.quirks = s.quirks := by
  unfold op_fx0a at h
  cases hr : fx0aRelease (fx0aScan s op) with
  | none => rw [hr] at h; exact Option.noConfusion h
  | some q =>
    rw [hr] at h
    simp only [Option.some_bind] at h
    obtain ⟨hm, -, hi, -, hsp, hst, hd, hsd, hk, hf, hq⟩ := fx0aRelease_some hr
    obtain ⟨gm, gi, -, gsp, gst, gd, gsd, gk, gf, gq⟩ := @fx0aScan_fst s op
    split_ifs at h
    · injection h with h'
      subst h'
      exact ⟨hm.trans gm, hi.trans gi, hsp.trans gsp, hst.trans gst, hd.trans gd,
        hsd.trans gsd, hk.trans gk, hf.trans gf, hq.trans gq⟩
    · injection h with h'
      subst h'
      exact ⟨hm.trans gm, hi.trans gi, hsp.trans gsp, hst.trans gst, hd.trans gd,
        hsd.trans gsd, hk.trans gk, hf.trans gf, hq.trans gq⟩

/-- Claim C1 (code_bug evidence): loading the two-byte ROM 00 EE and
stepping once executes RET with stack pointer 0; the emulation aborts
(stack-pointer underflow followed by an out-of-bounds stack read)
instead of producing Ok or an UndefinedInstruction error. -/
theorem ret_with_empty_stack_aborts :
    (Chip8.load Chip8.new [0x00, 0xEE]).map (fun s => emulate s 0) =
      some Outcome.crash := rfl

/-- Claim C4 (code_bug evidence): Chip8::reset does not restore the
just-constructed state: from a state whose FX0A latch holds key 3
(as after a latching FX0A cycle), reset keeps the latch at key 3 while
Chip8::new starts with an empty latch, so the reset state differs from
the new state. -/
theorem reset_keeps_pressed_key :
    (Chip8.reset { Chip8.new with pressed_key := some 3 }).pressed_key = some 3 ∧
    Chip8.new.pressed_key = none ∧
    Chip8.reset { Chip8.new with pressed_key := some 3 } ≠ Chip8.new := by
  refine ⟨rfl, rfl, fun h => ?_⟩
  exact Option.noConfusion (congrArg Chip8.pressed_key h)

/-- Claim C2: when the fetch is in bounds, emulate returns the
UndefinedInstruction error exactly when no dispatch arm matches the
fetched opcode; the error carries that opcode, and the state it leaves
behind is the starting state with only the program counter advanced by
2 by the fetch.  When an arm matches, no UndefinedInstruction error can
be returned (Outcome.undefined is the model of the single error kind of
ExecuteError). -/
theorem emulate_undef_iff (s : Chip8) (rnd : Nat) (hpc : s.pc + 1 < 4096) :
    (¬ definedOp (opcodeAt s) →
      emulate s rnd = Outcome.undefined (opcodeAt s) { s with pc := s.pc + 2 }) ∧
    (definedOp (opcodeAt s) → ∀ o t, emulate s rnd ≠ Outcome.undefined o t) := by
  simp only [emulate, fetch, if_pos hpc]
  constructor
  · intro hnd
    have hd : decode (opcodeAt s) = Instr.iundefined := not_not.mp hnd
    simp only [execute, hd]
  · intro hdf o t
    cases hd : decode (opcodeAt s) <;> simp only [execute, hd] <;>
      first
        | exact absurd hd hdf
        | exact fun h => Outcome.noConfusion h
        | exact ofOpt_ne_undefined _ o t

/-- Witness for C2: the freshly constructed engine holds opcode 0x0000
at the program start, which no arm matches, and one step returns the
error with that opcode having advanced pc from 0x200 to 0x202. -/
theorem emulate_undef_iff_witness :
    emulate Chip8.new 0 = Outcome.undefined 0 { Chip8.new with pc := 0x202 } :=
  (emulate_undef_iff Chip8.new 0 (by decide)).1 (by decide)

/-! Decode lemmas: the dispatch arm reached under given nibble
patterns. -/

theorem decode_7xkk (op : Nat) (h1 : nib1 op = 0x7) : decode op = Instr.i7xkk := by
  simp [decode, h1]

theorem decode_8xy4 (op : Nat) (h1 : nib1 op = 0x8) (h4 : nib4 op = 0x4) :
    decode op = Instr.i8xy4 := by
  simp [decode, h1, h4]

theorem decode_8xy5 (op : Nat) (h1 : nib1 op = 0x8) (h4 : nib4 op = 0x5) :
    decode op = Instr.i8xy5 := by
  simp [decode, h1, h4]

theorem decode_8xy7 (op : Nat) (h1 : nib1 op = 0x8) (h4 : nib4 op = 0x7) :
    decode op = Instr.i8xy7 := by
  simp [decode, h1, h4]

theorem decode_fx0a (op : Nat) (h1 : nib1 op = 0xF) (h3 : nib3 op = 0x0) (h4 : nib4 op = 0xA) :
    decode op = Instr.ifx0a := by
  simp [decode, h1, h3, h4]

theorem decode_fx1e (op : Nat) (h1 : nib1 op = 0xF) (h3 : nib3 op = 0x1) (h4 : nib4 op = 0xE) :
    decode op = Instr.ifx1e := by
  simp [decode, h1, h3, h4]

theorem decode_fx29 (op : Nat) (h1 : nib1 op = 0xF) (h3 : nib3 op = 0x2) (h4 : nib4 op = 0x9) :
    decode op = Instr.ifx29 := by
  simp [decode, h1, h3, h4]

/-- Claim C5 counterexample: with V0 = 0x12 (low nibble 2), executing
opcode F029 sets the index register to 0x12 * 5 = 90, not to the
address 0 + 5 * 2 = 10 of the glyph selected by the low nibble, so
FX29 does not mask VX to its low nibble. -/
theorem fx29_ignores_low_nibble :
    ((stepOk (execute { Chip8.new with
        registers := fun i => if i = 0 then 0x12 else 0 } 0 0xF029)).map Chip8.index) =
      some 90 ∧
    (0 + 5 * (0x12 % 16) : Nat) = 10 ∧ (90 : Nat) ≠ 10 := by
  refine ⟨rfl, by norm_num, by norm_num⟩

/-- Claim C5 amended: executing FX29 sets the index register to
5 * VX with the full byte value of VX, unmasked (the font base address
is 0 in this engine); this coincides with font base + 5 * (VX mod 16)
exactly on the values VX at most 0xF. -/
theorem fx29_uses_full_byte (s : Chip8) (rnd op : Nat)
    (h1 : nib1 op = 0xF) (h3 : nib3 op = 0x2) (h4 : nib4 op = 0x9) :
    execute s rnd op = Outcome.ok { s with index := s.registers (nib2 op) * 5 } ∧
    (s.registers (nib2 op) < 16 →
      s.registers (nib2 op) * 5 = 0 + 5 * (s.registers (nib2 op) % 16)) := by
  constructor
  · simp only [execute, decode_fx29 op h1 h3 h4, op_fx29]
  · intro hv
    rw [Nat.mod_eq_of_lt hv]
    ring

/-- Witness for the amended C5: with V5 = 7 opcode F529 yields
index = 35 = 5 * 7, and 7 is small enough that the glyph address
reading agrees. -/
theorem fx29_uses_full_byte_witness :
    execute { Chip8.new with registers := fun i => if i = 5 then 7 else 0 } 0 0xF529 =
      Outcome.ok { Chip8.new with
        registers := fun i => if i = 5 then 7 else 0
        index := 35 } ∧ (7 : Nat) * 5 = 0 + 5 * (7 % 16) :=
  ⟨(fx29_uses_full_byte { Chip8.new with registers := fun i => if i = 5 then 7 else 0 }
      0 0xF529 (by decide) (by decide) (by decide)).1,
   (fx29_uses_full_byte { Chip8.new with registers := fun i => if i = 5 then 7 else 0 }
      0 0xF529 (by decide) (by decide) (by decide)).2 (by decide)⟩

/-- Claim C10: FX1E sets the index register to (index + VX) mod 2^16:
the u16 wrapping addition, with no 12-bit mask, no saturation and no
error outcome, so the index may legally end up beyond 0x0FFF. -/
theorem fx1e_wraps_index (s : Chip8) (rnd op : Nat)
    (h1 : nib1 op = 0xF) (h3 : nib3 op = 0x1) (h4 : nib4 op = 0xE) :
    execute s rnd op = Outcome.ok { s with
      index := (s.index + s.registers (nib2 op)) % 65536 } := by
  simp only [execute, decode_fx1e op h1 h3 h4, op_fx1e]

/-- Witness for C10: from index = 0x0FFF and V2 = 2, opcode F21E
succeeds and leaves index = 0x1001, beyond the 4 KiB memory. -/
theorem fx1e_wraps_index_witness :
    execute { Chip8.new with
        index := 0xFFF, registers := fun i => if i = 2 then 2 else 0 } 0 0xF21E =
      Outcome.ok { Chip8.new with
        index := 0x1001, registers := fun i => if i = 2 then 2 else 0 } :=
  fx1e_wraps_index { Chip8.new with
      index := 0xFFF, registers := fun i => if i = 2 then 2 else 0 } 0 0xF21E
    (by decide) (by decide) (by decide)

/-- Claim C9 counterexample: for X = 0xF the claimed conjunction fails:
with VF = 200 and V0 = 100, executing 8F04 leaves VF = 1 (the carry
flag, written last), not the claimed wrapped sum (200 + 100) mod 256 =
44, so 8XY4 does not store the sum in VX for every register index X. -/
theorem add_flag_overwrites_vf :
    ((stepOk (execute { Chip8.new with
        registers := fun i => if i = 0xF then 200 else if i = 0 then 100 else 0 }
          0 0x8F04)).map (fun t => t.registers 0xF)) = some 1 ∧
    ((200 + 100) % 256 : Nat) = 44 ∧ (1 : Nat) ≠ 44 := by
  refine ⟨rfl, by norm_num, by norm_num⟩

/-- Claim C9 amended: for all byte-valued operands, 7XNN stores the
wrapped sum in VX and touches no other register (in particular no
flag when X is not 0xF); 8XY4, 8XY5 and 8XY7 store the wrapped
sum/difference in VX and then write the carry/no-borrow flag to VF,
computed from the operand values alone; the flag write comes last, so
when X = 0xF it overwrites the stored arithmetic result, and the
stored-result clause holds whenever X is not 0xF. -/
theorem arithmetic_flags_amended (s : Chip8) (rnd op : Nat)
    (ha : s.registers (nib2 op) < 256) (hb : s.registers (nib3 op) < 256) :
    (nib1 op = 0x7 → ∃ t, execute s rnd op = Outcome.ok t ∧
      t.registers (nib2 op) = (s.registers (nib2 op) + (op &&& 0x00FF)) % 256 ∧
      (∀ i, i ≠ nib2 op → t.registers i = s.registers i)) ∧
    (nib1 op = 0x8 → nib4 op = 0x4 → ∃ t, execute s rnd op = Outcome.ok t ∧
      t.registers 0xF =
        (if 256 ≤ s.registers (nib2 op) + s.registers (nib3 op) then 1 else 0) ∧
      (nib2 op ≠ 0xF → t.registers (nib2 op) =
        (s.registers (nib2 op) + s.registers (nib3 op)) % 256) ∧
      (∀ i, i ≠ nib2 op → i ≠ 0xF → t.registers i = s.registers i)) ∧
    (nib1 op = 0x8 → nib4 op = 0x5 → ∃ t, execute s rnd op = Outcome.ok t ∧
      t.registers 0xF =
        (if s.registers (nib2 op) < s.registers (nib3 op) then 0 else 1) ∧
      (nib2 op ≠ 0xF → t.registers (nib2 op) =
        (s.registers (nib2 op) + 256 - s.registers (nib3 op)) % 256) ∧
      (∀ i, i ≠ nib2 op → i ≠ 0xF → t.registers i = s.registers i)) ∧
    (nib1 op = 0x8 → nib4 op = 0x7 → ∃ t, execute s rnd op = Outcome.ok t ∧
      t.registers 0xF =
        (if s.registers (nib3 op) < s.registers (nib2 op) then 0 else 1) ∧
      (nib2 op ≠ 0xF → t.registers (nib2 op) =
        (s.registers (nib3 op) + 256 - s.registers (nib2 op)) % 256) ∧
      (∀ i, i ≠ nib2 op → i ≠ 0xF → t.registers i = s.registers i)) := by
  refine ⟨fun h1 => ?_, fun h1 h4 => ?_, fun h1 h4 => ?_, fun h1 h4 => ?_⟩
  · refine ⟨_, by simp only [execute, decode_7xkk op h1, op_7xkk]; rfl, ?_, ?_⟩
    · simp [Function.update_same]
    · intro i hi
      simp [Function.update_noteq hi]
  · refine ⟨_, by simp only [execute, decode_8xy4 op h1 h4, op_8xy4]; rfl, ?_, ?_, ?_⟩
    · simp [Function.update_same]
    · intro hx
      simp [Function.update_noteq hx, Function.update_same]
    · intro i hi hf
      simp [Function.update_noteq hi, Function.update_noteq hf]
  · refine ⟨_, by simp only [execute, decode_8xy5 op h1 h4, op_8xy5]; rfl, ?_, ?_, ?_⟩
    · simp [Function.update_same]
    · intro hx
      simp only [Function.update_noteq hx, Function.update_same]
      split_ifs <;> omega
    · intro i hi hf
      simp [Function.update_noteq hi, Function.update_noteq hf]
  · refine ⟨_, by simp only [execute, decode_8xy7 op h1 h4, op_8xy7]; rfl, ?_, ?_, ?_⟩
    · simp [Function.update_same]
    · intro hx
      simp only [Function.update_noteq hx, Function.update_same]
      split_ifs <;> omega
    · intro i hi hf
      simp [Function.update_noteq hi, Function.update_noteq hf]

/-- Witness for the amended C9: V1 = 200, V2 = 100: opcode 8124 leaves
V1 = 44 and VF = 1. -/
theorem arithmetic_flags_amended_witness :
    ∃ t, execute { Chip8.new with
        registers := fun i => if i = 1 then 200 else if i = 2 then 100 else 0 }
          0 0x8124 = Outcome.ok t ∧
      t.registers 0xF = (if (256 : Nat) ≤ 200 + 100 then 1 else 0) ∧
      (nib2 0x8124 ≠ 0xF → t.registers (nib2 0x8124) = (200 + 100) % 256) ∧
      (∀ i, i ≠ nib2 0x8124 → i ≠ 0xF → t.registers i =
        ({ Chip8.new with
            registers := fun i => if i = 1 then 200 else if i = 2 then 100 else 0 } :
          Chip8).registers i) :=
  ((arithmetic_flags_amended { Chip8.new with
      registers := fun i => if i = 1 then 200 else if i = 2 then 100 else 0 }
      0 0x8124 (by decide) (by decide)).2.1 (by decide) (by decide))

/-- Claim C6: timers change only through the external tick_timers
operation and through the FX15/FX18 store semantics.  tick_timers
decrements each positive timer by exactly 1, leaves a zero timer at
zero, and changes no other field; a successful emulate step leaves the
delay timer unchanged unless the fetched opcode dispatches to FX15
(which sets it to VX), and the sound timer unchanged unless it
dispatches to FX18 (which sets it to VX) — in particular no step ever
decrements a timer. -/
theorem timers_external_tick_only (s : Chip8) :
    ((0 < s.delay_timer → (tick_timers s).delay_timer = s.delay_timer - 1) ∧
     (s.delay_timer = 0 → (tick_timers s).delay_timer = 0) ∧
     (0 < s.sound_timer → (tick_timers s).sound_timer = s.sound_timer - 1) ∧
     (s.sound_timer = 0 → (tick_timers s).sound_timer = 0) ∧
     (tick_timers s).memory = s.memory ∧ (tick_timers s).registers = s.registers ∧
     (tick_timers s).index = s.index ∧ (tick_timers s).pc = s.pc ∧
     (tick_timers s).sp = s.sp ∧ (tick_timers s).stack = s.stack ∧
     (tick_timers s).keys = s.keys ∧ (tick_timers s).framebuffer = s.framebuffer ∧
     (tick_timers s).quirks = s.quirks ∧ (tick_timers s).pressed_key = s.pressed_key) ∧
    (∀ rnd t, emulate s rnd = Outcome.ok t →
      (decode (opcodeAt s) ≠ Instr.ifx15 → t.delay_timer = s.delay_timer) ∧
      (decode (opcodeAt s) = Instr.ifx15 →
        t.delay_timer = s.registers (nib2 (opcodeAt s))) ∧
      (decode (opcodeAt s) ≠ Instr.ifx18 → t.sound_timer = s.sound_timer) ∧
      (decode (opcodeAt s) = Instr.ifx18 →
        t.sound_timer = s.registers (nib2 (opcodeAt s)))) := by
  constructor
  · refine ⟨?_, ?_, ?_, ?_, rfl, rfl, rfl, rfl, rfl, rfl, rfl, rfl, rfl, rfl⟩
    · intro h
      simp only [tick_timers]
      rw [if_pos h]
    · intro h
      simp [tick_timers, h]
    · intro h
      simp only [tick_timers]
      rw [if_pos h]
    · intro h
      simp [tick_timers, h]
  · intro rnd t h
    by_cases hpc : s.pc + 1 < 4096
    · simp only [emulate, fetch, if_pos hpc] at h
      cases hd : decode (opcodeAt s) <;> simp only [execute, hd] at h
      ·
        injection h with h'
        subst h'
        exact ⟨fun _ => rfl, fun he => absurd he (by simp),
               fun _ => rfl, fun he => absurd he (by simp)⟩
      ·
        rw [ofOpt_eq_ok] at h
        obtain ⟨-, -, -, -, hdl, hsn, -, -, -, -⟩ := op_00ee_some h
        exact ⟨fun _ => hdl, fun he => absurd he (by simp),
               fun _ => hsn, fun he => absurd he (by simp)⟩
      ·
        injection h with h'
        subst h'
        exact ⟨fun _ => rfl, fun he => absurd he (by simp),
               fun _ => rfl, fun he => absurd he (by simp)⟩
      ·
        rw [ofOpt_eq_ok] at h
        obtain ⟨-, -, -, hdl, hsn, -, -, -, -, -⟩ := op_2nnn_some h
        exact ⟨fun _ => hdl, fun he => absurd he (by simp),
               fun _ => hsn, fun he => absurd he (by simp)⟩
      ·
        injection h with h'
        subst h'
        refine ⟨fun _ => ?_, fun he => absurd he (by simp),
                fun _ => ?_, fun he => absurd he (by simp)⟩ <;>
          (unfold op_3xkk; split <;> rfl)
      ·
        injection h with h'
        subst h'
        refine ⟨fun _ => ?_, fun he => absurd he (by simp),
                fun _ => ?_, fun he => absurd he (by simp)⟩ <;>
          (unfold op_4xkk; split <;> rfl)
      ·
        injection h with h'
        subst h'
        refine ⟨fun _ => ?_, fun he => absurd he (by simp),
                fun _ => ?_, fun he => absurd he (by simp)⟩ <;>
          (unfold op_5xy0; split <;> rfl)
      ·
        injection h with h'
        subst h'
        exact ⟨fun _ => rfl, fun he => absurd he (by simp),
               fun _ => rfl, fun he => absurd he (by simp)⟩
      ·
        injection h with h'
        subst h'
        exact ⟨fun _ => rfl, fun he => absurd he (by simp),
               fun _ => rfl, fun he => absurd he (by simp)⟩
      ·
        injection h with h'
        subst h'
        exact ⟨fun _ => rfl, fun he => absurd he (by simp),
               fun _ => rfl, fun he => absurd he (by simp)⟩
      ·
        injection h with h'
        subst h'
        exact ⟨fun _ => rfl, fun he => absurd he (by simp),
               fun _ => rfl, fun he => absurd he (by simp)⟩
      ·
        injection h with h'
        subst h'
        exact ⟨fun _ => rfl, fun he => absurd he (by simp),
               fun _ => rfl, fun he => absurd he (by simp)⟩
      ·
        injection h with h'
        subst h'
        exact ⟨fun _ => rfl, fun he => absurd he (by simp),
               fun _ => rfl, fun he => absurd he (by simp)⟩
      ·
        injection h with h'
        subst h'
        exact ⟨fun _ => rfl, fun he => absurd he (by simp),
               fun _ => rfl, fun he => absurd he (by simp)⟩
      ·
        injection h with h'
        subst h'
        exact ⟨fun _ => rfl, fun he => absurd he (by simp),
               fun _ => rfl, fun he => absurd he (by simp)⟩
      ·
        injection h with h'
        subst h'
        exact ⟨fun _ => rfl, fun he => absurd he (by simp),
               fun _ => rfl, fun he => absurd he (by simp)⟩
      ·
        injection h with h'
        subst h'
        exact ⟨fun _ => rfl, fun he => absurd he (by simp),
               fun _ => rfl, fun he => absurd he (by simp)⟩
      ·
        injection h with h'
        subst h'
        exact ⟨fun _ => rfl, fun he => absurd he (by simp),
               fun _ => rfl, fun he => absurd he (by simp)⟩
      ·
        injection h with h'
        subst h'
        refine ⟨fun _ => ?_, fun he => absurd he (by simp),
                fun _ => ?_, fun he => absurd he (by simp)⟩ <;>
          (unfold op_9xy0; split <;> rfl)
      ·
        injection h with h'
        subst h'
        exact ⟨fun _ => rfl, fun he => absurd he (by simp),
               fun _ => rfl, fun he => absurd he (by simp)⟩
      ·
        injection h with h'
        subst h'
        refine ⟨fun _ => ?_, fun he => absurd he (by simp),
                fun _ => ?_, fun he => absurd he (by simp)⟩ <;>
          (unfold op_bnnn; split <;> rfl)
      ·
        injection h with h'
        subst h'
        exact ⟨fun _ => rfl, fun he => absurd he (by simp),
               fun _ => rfl, fun he => absurd he (by simp)⟩
      ·
        rw [ofOpt_eq_ok] at h
        obtain ⟨-, -, -, -, -, hdl, hsn, -, -, -⟩ := op_dxyn_some h
        exact ⟨fun _ => hdl, fun he => absurd he (by simp),
               fun _ => hsn, fun he => absurd he (by simp)⟩
      ·
        rw [ofOpt_eq_ok] at h
        obtain ⟨-, -, -, -, -, hdl, hsn, -, -, -, -, -⟩ := op_ex9e_some h
        exact ⟨fun _ => hdl, fun he => absurd he (by simp),
               fun _ => hsn, fun he => absurd he (by simp)⟩
      ·
        rw [ofOpt_eq_ok] at h
        obtain ⟨-, -, -, -, -, hdl, hsn, -, -, -, -, -⟩ := op_exa1_some h
        exact ⟨fun _ => hdl, fun he => absurd he (by simp),
               fun _ => hsn, fun he => absurd he (by simp)⟩
      ·
        injection h with h'
        subst h'
        exact ⟨fun _ => rfl, fun he => absurd he (by simp),
               fun _ => rfl, fun he => absurd he (by simp)⟩
      ·
        rw [ofOpt_eq_ok] at h
        obtain ⟨-, -, -, -, hdl, hsn, -, -, -⟩ := op_fx0a_some h
        exact ⟨fun _ => hdl, fun he => absurd he (by simp),
               fun _ => hsn, fun he => absurd he (by simp)⟩
      ·
        injection h with h'
        subst h'
        exact ⟨fun hne => absurd rfl hne, fun _ => rfl,
               fun _ => rfl, fun he => absurd he (by simp)⟩
      ·
        injection h with h'
        subst h'
        exact ⟨fun _ => rfl, fun he => absurd he (by simp),
               fun hne => absurd rfl hne, fun _ => rfl⟩
      ·
        injection h with h'
        subst h'
        exact ⟨fun _ => rfl, fun he => absurd he (by simp),
               fun _ => rfl, fun he => absurd he (by simp)⟩
      ·
        injection h with h'
        subst h'
        exact ⟨fun _ => rfl, fun he => absurd he (by simp),
               fun _ => rfl, fun he => absurd he (by simp)⟩
      ·
        rw [ofOpt_eq_ok] at h
        obtain ⟨-, -, -, -, -, hdl, hsn, -, -, -, -⟩ := op_fx33_some h
        exact ⟨fun _ => hdl, fun he => absurd he (by simp),
               fun _ => hsn, fun he => absurd he (by simp)⟩
      ·
        rw [ofOpt_eq_ok] at h
        obtain ⟨-, -, -, -, hdl, hsn, -, -, -, -⟩ := op_fx55_some h
        exact ⟨fun _ => hdl, fun he => absurd he (by simp),
               fun _ => hsn, fun he => absurd he (by simp)⟩
      ·
        rw [ofOpt_eq_ok] at h
        obtain ⟨-, -, -, -, hdl, hsn, -, -, -, -⟩ := op_fx65_some h
        exact ⟨fun _ => hdl, fun he => absurd he (by simp),
               fun _ => hsn, fun he => absurd he (by simp)⟩
      ·
        exact Outcome.noConfusion h
    · simp only [emulate, fetch, if_neg hpc] at h
      exact Outcome.noConfusion h

/-- Witness for C6: a state with delay timer 5 and sound timer 0 ticks
to 4 and 0; and a step over opcode 6005 (LD V0, 5) leaves both timers
of that state unchanged. -/
theorem timers_external_tick_only_witness :
    (tick_timers { Chip8.new with delay_timer := 5 }).delay_timer = 5 - 1 ∧
    (tick_timers { Chip8.new with delay_timer := 5 }).sound_timer = 0 ∧
    (∀ t, emulate { Chip8.new with
        memory := fun a => if a = 0x200 then 0x60 else if a = 0x201 then 0x05 else
          Chip8.new.memory a
        delay_timer := 5 } 0 = Outcome.ok t →
      t.delay_timer = 5 ∧ t.sound_timer = 0) := by
  refine ⟨(timers_external_tick_only { Chip8.new with delay_timer := 5 }).1.1 (by decide),
         (timers_external_tick_only { Chip8.new with delay_timer := 5 }).1.2.2.2.1 rfl, ?_⟩
  intro t ht
  have h6 := (timers_external_tick_only { Chip8.new with
      memory := fun a => if a = 0x200 then 0x60 else if a = 0x201 then 0x05 else
        Chip8.new.memory a
      delay_timer := 5 }).2 0 t ht
  exact ⟨h6.1 (by decide), h6.2.2.1 (by decide)⟩

/-- Writes at addresses idx + i for i from l do not affect an address a
outside that set. -/
theorem foldl_update_outside (idx : Nat) (g : Nat → Nat) (a : Nat) :
    ∀ (l : List Nat) (m : Nat → Nat), (∀ i ∈ l, idx + i ≠ a) →
      (l.foldl (fun m i => Function.update m (idx + i) (g i)) m) a = m a := by
  intro l
  induction l with
  | nil => intro m _; rfl
  | cons x xs ih =>
    intro m h
    simp only [List.foldl_cons]
    rw [ih _ fun i hi => h i (List.mem_cons_of_mem _ hi),
      Function.update_noteq fun hc => h x (List.mem_cons_self x xs) hc.symm]

/-- A successful emulate step preserves the 80 font bytes provided
that, when the fetched opcode dispatches to the memory-store
instructions FX33 or FX55, the index register is at least 0x50. -/
theorem emulate_ok_font_bytes (s : Chip8) (rnd : Nat) (t : Chip8)
    (h : emulate s rnd = Outcome.ok t)
    (hside : (decode (opcodeAt s) = Instr.ifx33 ∨ decode (opcodeAt s) = Instr.ifx55) →
      80 ≤ s.index) :
    ∀ a, a < 80 → t.memory a = s.memory a := by
  by_cases hpc : s.pc + 1 < 4096
  · simp only [emulate, fetch, if_pos hpc] at h
    cases hd : decode (opcodeAt s) <;> rw [hd] at hside <;> simp only [execute, hd] at h
    · injection h with h'
      subst h'
      exact fun a _ => rfl
    · rw [ofOpt_eq_ok] at h
      exact fun a _ => congrFun (op_00ee_some h).1 a
    · injection h with h'
      subst h'
      exact fun a _ => rfl
    · rw [ofOpt_eq_ok] at h
      exact fun a _ => congrFun (op_2nnn_some h).1 a
    · injection h with h'
      subst h'
      intro a _
      unfold op_3xkk
      split <;> rfl
    · injection h with h'
      subst h'
      intro a _
      unfold op_4xkk
      split <;> rfl
    · injection h with h'
      subst h'
      intro a _
      unfold op_5xy0
      split <;> rfl
    · injection h with h'
      subst h'
      exact fun a _ => rfl
    · injection h with h'
      subst h'
      exact fun a _ => rfl
    · injection h with h'
      subst h'
      exact fun a _ => rfl
    · injection h with h'
      subst h'
      exact fun a _ => rfl
    · injection h with h'
      subst h'
      exact fun a _ => rfl
    · injection h with h'
      subst h'
      exact fun a _ => rfl
    · injection h with h'
      subst h'
      exact fun a _ => rfl
    · injection h with h'
      subst h'
      exact fun a _ => rfl
    · injection h with h'
      subst h'
      exact fun a _ => rfl
    · injection h with h'
      subst h'
      exact fun a _ => rfl
    · injection h with h'
      subst h'
      exact fun a _ => rfl
    · injection h with h'
      subst h'
      intro a _
      unfold op_9xy0
      split <;> rfl
    · injection h with h'
      subst h'
      exact fun a _ => rfl
    · injection h with h'
      subst h'
      intro a _
      unfold op_bnnn
      split <;> rfl
    · injection h with h'
      subst h'
      exact fun a _ => rfl
    · rw [ofOpt_eq_ok] at h
      exact fun a _ => congrFun (op_dxyn_some h).1 a
    · rw [ofOpt_eq_ok] at h
      exact fun a _ => congrFun (op_ex9e_some h).1 a
    · rw [ofOpt_eq_ok] at h
      exact fun a _ => congrFun (op_exa1_some h).1 a
    · injection h with h'
      subst h'
      exact fun a _ => rfl
    · rw [ofOpt_eq_ok] at h
      exact fun a _ => congrFun (op_fx0a_some h).1 a
    · injection h with h'
      subst h'
      exact fun a _ => rfl
    · injection h with h'
      subst h'
      exact fun a _ => rfl
    · injection h with h'
      subst h'
      exact fun a _ => rfl
    · injection h with h'
      subst h'
      exact fun a _ => rfl
    · rw [ofOpt_eq_ok] at h
      have hi : 80 ≤ s.index := hside (Or.inl rfl)
      unfold op_fx33 at h
      split_ifs at h
      injection h with h'
      subst h'
      intro a ha
      have h1 : a ≠ s.index := by omega
      have h2 : a ≠ s.index + 1 := by omega
      have h3 : a ≠ s.index + 2 := by omega
      simp [Function.update_noteq h1, Function.update_noteq h2, Function.update_noteq h3]
    · rw [ofOpt_eq_ok] at h
      have hi : 80 ≤ s.index := hside (Or.inr rfl)
      unfold op_fx55 at h
      split_ifs at h <;> injection h with h' <;> subst h' <;> intro a ha <;>
        exact foldl_update_outside s.index (fun i => s.registers i) a
          (List.range (nib2 (opcodeAt s) + 1)) s.memory (fun i _ => by omega)
    · rw [ofOpt_eq_ok] at h
      exact fun a _ => congrFun (op_fx65_some h).1 a
    · exact Outcome.noConfusion h
  · simp only [emulate, fetch, if_neg hpc] at h
    exact Outcome.noConfusion h

/-- Claim C3 counterexample: the program A0 00 F0 33 (LD I, 0 then
LD B, V0) is loaded and stepped twice from a fresh engine; FX33 writes
the BCD of V0 = 0 at memory[0..2], so font byte 0 becomes 0 although
the font set starts with 0xF0 — an instruction run can overwrite the
font region. -/
theorem font_overwritten_by_fx33 :
    (((Chip8.load Chip8.new [0xA0, 0x00, 0xF0, 0x33]).bind fun s => stepOk (emulate s 0)).bind
        fun s => (stepOk (emulate s 0)).map fun t => t.memory 0) = some 0 ∧
    fontByte 0 = 0xF0 ∧ (0 : Nat) ≠ 0xF0 := by
  refine ⟨rfl, rfl, by norm_num⟩

/-- Claim C3 amended: from a state whose font region is intact, load,
set_key and tick_timers preserve the font bytes, as does every emulate
step — whether it succeeds or reports an undefined instruction —
provided that, when the fetched opcode dispatches to the memory-store
instructions FX33 or FX55 (whose target addresses come from the index
register), the index register is at least 0x50; FX33/FX55 with a
smaller index can overwrite the font. -/
theorem font_preserved_amended (s : Chip8) (hf : fontIntact s) :
    (∀ d t, Chip8.load s d = some t → fontIntact t) ∧
    (∀ i b t, set_key s i b = some t → fontIntact t) ∧
    fontIntact (tick_timers s) ∧
    (∀ rnd o t, emulate s rnd = Outcome.undefined o t → fontIntact t) ∧
    (∀ rnd t, emulate s rnd = Outcome.ok t →
      ((decode (opcodeAt s) = Instr.ifx33 ∨ decode (opcodeAt s) = Instr.ifx55) →
        80 ≤ s.index) →
      fontIntact t) := by
  refine ⟨?_, ?_, ?_, ?_, ?_⟩
  · intro d t h
    unfold load at h
    split_ifs at h
    injection h with h'
    subst h'
    intro a ha
    have hn : ¬(0x200 ≤ a ∧ a < 0x200 + d.length) := by omega
    show (if 0x200 ≤ a ∧ a < 0x200 + d.length then d.getD (a - 0x200) 0 else s.memory a) =
      fontByte a
    rw [if_neg hn]
    exact hf a ha
  · intro i b t h
    unfold set_key at h
    split_ifs at h
    injection h with h'
    subst h'
    exact hf
  · exact hf
  · intro rnd o t h
    by_cases hpc : s.pc + 1 < 4096
    · simp only [emulate, fetch, if_pos hpc] at h
      cases hd : decode (opcodeAt s) <;> simp only [execute, hd] at h <;>
        first
          | exact Outcome.noConfusion h
          | exact absurd h (ofOpt_ne_undefined _ _ _)
          | (injection h with h1 h2; subst h2; exact hf)
    · simp only [emulate, fetch, if_neg hpc] at h
      exact Outcome.noConfusion h
  · intro rnd t h hside
    intro a ha
    rw [emulate_ok_font_bytes s rnd t h hside a ha]
    exact hf a ha

/-- Witness for the amended C3: the freshly constructed engine has an
intact font, and it stays intact across a timer tick. -/
theorem font_preserved_amended_witness : fontIntact (tick_timers Chip8.new) :=
  (font_preserved_amended Chip8.new (by decide)).2.2.1

/-! FX0A phase lemmas. -/

theorem fx0aScan_latched (u : Chip8) (op k : Nat) (hrel : u.quirks.release = true)
    (hpk : u.pressed_key = some k) : fx0aScan u op = (u, false) := by
  unfold fx0aScan
  rw [if_neg]
  simp [hrel, hpk]

theorem fx0aScan_none_found (u : Chip8) (op i : Nat) (hpk : u.pressed_key = none)
    (hfind : (List.range 16).find? u.keys = some i) :
    fx0aScan u op = ({ u with
      registers := Function.update u.registers (nib2 op) i
      pressed_key := some i }, !u.quirks.release) := by
  unfold fx0aScan
  rw [if_pos (Or.inr hpk), hfind]

theorem fx0aScan_none_idle (u : Chip8) (op : Nat) (hpk : u.pressed_key = none)
    (hfind : (List.range 16).find? u.keys = none) : fx0aScan u op = (u, false) := by
  unfold fx0aScan
  rw [if_pos (Or.inr hpk), hfind]

theorem fx0aRelease_up (u : Chip8) (b : Bool) (k : Nat) (hrel : u.quirks.release = true)
    (hpk : u.pressed_key = some k) (hk16 : k < 16) (hku : u.keys k = false) :
    fx0aRelease (u, b) = some ({ u with pressed_key := none }, true) := by
  unfold fx0aRelease
  simp [hrel, hpk, hk16, hku]

theorem fx0aRelease_down (u : Chip8) (b : Bool) (k : Nat) (hrel : u.quirks.release = true)
    (hpk : u.pressed_key = some k) (hk16 : k < 16) (hkd : u.keys k = true) :
    fx0aRelease (u, b) = some (u, b) := by
  unfold fx0aRelease
  simp [hrel, hpk, hk16, hkd]

theorem fx0aRelease_idle (u : Chip8) (b : Bool) (hpk : u.pressed_key = none) :
    fx0aRelease (u, b) = some (u, b) := by
  unfold fx0aRelease
  split <;> simp [hpk]

/-- Which dispatch arms can leave the program counter where the cycle
started: a successful step whose final pc equals the starting pc
executed FX0A or one of the explicit control transfers (1NNN, 2NNN,
BNNN, 00EE) targeting that address. -/
theorem emulate_ok_pc_stationary (s : Chip8) (rnd : Nat) (t : Chip8)
    (h : emulate s rnd = Outcome.ok t) (hpcs : t.pc = s.pc) :
    decode (opcodeAt s) = Instr.ifx0a ∨ decode (opcodeAt s) = Instr.i1nnn ∨
    decode (opcodeAt s) = Instr.i2nnn ∨ decode (opcodeAt s) = Instr.ibnnn ∨
    decode (opcodeAt s) = Instr.i00ee := by
  by_cases hpc : s.pc + 1 < 4096
  · simp only [emulate, fetch, if_pos hpc] at h
    cases hd : decode (opcodeAt s) <;> simp only [execute, hd] at h
    · injection h with h'
      subst h'
      simp only [op_00e0] at hpcs
      omega
    · simp
    · simp
    · simp
    · injection h with h'
      subst h'
      unfold op_3xkk at hpcs
      split at hpcs <;> simp only [] at hpcs <;> omega
    · injection h with h'
      subst h'
      unfold op_4xkk at hpcs
      split at hpcs <;> simp only [] at hpcs <;> omega
    · injection h with h'
      subst h'
      unfold op_5xy0 at hpcs
      split at hpcs <;> simp only [] at hpcs <;> omega
    · injection h with h'
      subst h'
      simp only [op_6xkk] at hpcs
      omega
    · injection h with h'
      subst h'
      simp only [op_7xkk] at hpcs
      omega
    · injection h with h'
      subst h'
      simp only [op_8xy0] at hpcs
      omega
    · injection h with h'
      subst h'
      simp only [op_8xy1] at hpcs
      omega
    · injection h with h'
      subst h'
      simp only [op_8xy2] at hpcs
      omega
    · injection h with h'
      subst h'
      simp only [op_8xy3] at hpcs
      omega
    · injection h with h'
      subst h'
      simp only [op_8xy4] at hpcs
      omega
    · injection h with h'
      subst h'
      simp only [op_8xy5] at hpcs
      omega
    · injection h with h'
      subst h'
      simp only [op_8xy6] at hpcs
      omega
    · injection h with h'
      subst h'
      simp only [op_8xy7] at hpcs
      omega
    · injection h with h'
      subst h'
      simp only [op_8xye] at hpcs
      omega
    · injection h with h'
      subst h'
      unfold op_9xy0 at hpcs
      split at hpcs <;> simp only [] at hpcs <;> omega
    · injection h with h'
      subst h'
      simp only [op_annn] at hpcs
      omega
    · simp
    · injection h with h'
      subst h'
      simp only [op_cxkk] at hpcs
      omega
    · rw [ofOpt_eq_ok] at h
      obtain ⟨-, -, h2, -, -, -, -, -, -, -⟩ := op_dxyn_some h
      have h3 : t.pc = s.pc + 2 := h2
      omega
    · rw [ofOpt_eq_ok] at h
      obtain ⟨-, -, -, -, -, -, -, -, -, -, -, h2⟩ := op_ex9e_some h
      have h3 : t.pc = s.pc + 2 ∨ t.pc = s.pc + 2 + 2 := h2
      omega
    · rw [ofOpt_eq_ok] at h
      obtain ⟨-, -, -, -, -, -, -, -, -, -, -, h2⟩ := op_exa1_some h
      have h3 : t.pc = s.pc + 2 ∨ t.pc = s.pc + 2 + 2 := h2
      omega
    · injection h with h'
      subst h'
      simp only [op_fx07] at hpcs
      omega
    · simp
    · injection h with h'
      subst h'
      simp only [op_fx15] at hpcs
      omega
    · injection h with h'
      subst h'
      simp only [op_fx18] at hpcs
      omega
    · injection h with h'
      subst h'
      simp only [op_fx1e] at hpcs
      omega
    · injection h with h'
      subst h'
      simp only [op_fx29] at hpcs
      omega
    · rw [ofOpt_eq_ok] at h
      obtain ⟨-, -, h2, -, -, -, -, -, -, -, -⟩ := op_fx33_some h
      have h3 : t.pc = s.pc + 2 := h2
      omega
    · rw [ofOpt_eq_ok] at h
      obtain ⟨-, h2, -, -, -, -, -, -, -, -⟩ := op_fx55_some h
      have h3 : t.pc = s.pc + 2 := h2
      omega
    · rw [ofOpt_eq_ok] at h
      obtain ⟨-, h2, -, -, -, -, -, -, -, -⟩ := op_fx65_some h
      have h3 : t.pc = s.pc + 2 := h2
      omega
    · exact Outcome.noConfusion h
  · simp only [emulate, fetch, if_neg hpc] at h
    exact Outcome.noConfusion h

/-- One emulate cycle of FX0A under the release quirk, by case on the
latch and keypad: a latched key now up completes the opcode (pc
advances past it, latch clears); a latched key still down re-arms the
cycle (the state, pc included, is exactly as before the cycle); no
latch and a pressed key latches the first pressed index, stores it in
Vx and rewinds pc; no latch and an idle keypad leaves the state as
before the cycle. -/
theorem emulate_fx0a_release (s : Chip8) (rnd : Nat)
    (hpc : s.pc + 1 < 4096)
    (hrel : s.quirks.release = true)
    (h1 : nib1 (opcodeAt s) = 0xF) (h3 : nib3 (opcodeAt s) = 0x0)
    (h4 : nib4 (opcodeAt s) = 0xA)
    (hrange : ∀ k, s.pressed_key = some k → k < 16) :
    (∀ k, s.pressed_key = some k → s.keys k = false →
      emulate s rnd = Outcome.ok { s with pc := s.pc + 2, pressed_key := none }) ∧
    (∀ k, s.pressed_key = some k → s.keys k = true →
      emulate s rnd = Outcome.ok s) ∧
    (s.pressed_key = none → ∀ i, (List.range 16).find? s.keys = some i →
      emulate s rnd = Outcome.ok { s with
        registers := Function.update s.registers (nib2 (opcodeAt s)) i
        pressed_key := some i }) ∧
    (s.pressed_key = none → (List.range 16).find? s.keys = none →
      emulate s rnd = Outcome.ok s) := by
  simp only [emulate, fetch, if_pos hpc, execute, decode_fx0a (opcodeAt s) h1 h3 h4]
  refine ⟨?_, ?_, ?_, ?_⟩
  · intro k hk hku
    unfold op_fx0a
    rw [fx0aScan_latched { s with pc := s.pc + 2 } (opcodeAt s) k hrel hk,
      fx0aRelease_up { s with pc := s.pc + 2 } false k hrel hk (hrange k hk) hku]
    rfl
  · intro k hk hkd
    unfold op_fx0a
    rw [fx0aScan_latched { s with pc := s.pc + 2 } (opcodeAt s) k hrel hk,
      fx0aRelease_down { s with pc := s.pc + 2 } false k hrel hk (hrange k hk) hkd]
    simp only [Option.some_bind]
    rw [if_neg (by simp), if_pos (by omega)]
    simp only [ofOpt, Nat.add_sub_cancel]
  · intro hpk i hfind
    have hk16 : i < 16 := List.mem_range.mp (List.mem_of_find?_eq_some hfind)
    have hkey : s.keys i = true := List.find?_some hfind
    unfold op_fx0a
    rw [fx0aScan_none_found { s with pc := s.pc + 2 } (opcodeAt s) i hpk hfind]
    rw [show (!({ s with pc := s.pc + 2 } : Chip8).quirks.release) = false by
      simp [hrel]]
    rw [fx0aRelease_down { s with
        pc := s.pc + 2
        registers := Function.update s.registers (nib2 (opcodeAt s)) i
        pressed_key := some i } false i hrel rfl hk16 hkey]
    simp only [Option.some_bind]
    rw [if_neg (by simp), if_pos (by omega)]
    simp only [ofOpt, Nat.add_sub_cancel]
  · intro hpk hfind
    unfold op_fx0a
    rw [fx0aScan_none_idle { s with pc := s.pc + 2 } (opcodeAt s) hpk hfind,
      fx0aRelease_idle { s with pc := s.pc + 2 } false hpk]
    simp only [Option.some_bind]
    rw [if_neg (by simp), if_pos (by omega)]
    simp only [ofOpt, Nat.add_sub_cancel]

/-- Claim C8 counterexample: a step need not execute FX0A to leave the
program counter at its starting address: the self-jump 0x1200 loaded at
0x200 executes and leaves pc back at 0x200, and 0x1200 dispatches to
the jump arm, not to FX0A. -/
theorem self_jump_leaves_pc_unchanged :
    Chip8.new.pc = 0x200 ∧
    ((Chip8.load Chip8.new [0x12, 0x00]).bind fun s =>
        (stepOk (emulate s 0)).map Chip8.pc) = some 0x200 ∧
    decode 0x1200 = Instr.i1nnn ∧ decode 0x1200 ≠ Instr.ifx0a := by
  refine ⟨rfl, rfl, rfl, by decide⟩

/-- Claim C8 amended: with the release quirk, an FX0A cycle completes
(pc moves past the opcode and the latch clears) exactly when a
previously latched key is observed up; a cycle that only sees a
key-down latches that key, stores it in Vx and rewinds pc by 2 so the
same opcode is re-fetched, and a cycle with no latch and no key held
re-fetches likewise with nothing else changed — so completion requires
a key-down observed by an earlier cycle and a key-up observed later,
across set_key calls between steps.  Moreover a successful step leaves
pc at its starting address only when the opcode dispatches to FX0A or
to an explicit control transfer (1NNN, 2NNN, BNNN, 00EE) whose target
is that address. -/
theorem fx0a_release_blocking_amended :
    (∀ (s : Chip8) (rnd : Nat),
      s.pc + 1 < 4096 →
      s.quirks.release = true →
      nib1 (opcodeAt s) = 0xF → nib3 (opcodeAt s) = 0x0 → nib4 (opcodeAt s) = 0xA →
      (∀ k, s.pressed_key = some k → k < 16) →
      ((∀ k, s.pressed_key = some k → s.keys k = false →
        emulate s rnd = Outcome.ok { s with pc := s.pc + 2, pressed_key := none }) ∧
       (∀ k, s.pressed_key = some k → s.keys k = true →
        emulate s rnd = Outcome.ok s) ∧
       (s.pressed_key = none → ∀ i, (List.range 16).find? s.keys = some i →
        emulate s rnd = Outcome.ok { s with
          registers := Function.update s.registers (nib2 (opcodeAt s)) i
          pressed_key := some i }) ∧
       (s.pressed_key = none → (List.range 16).find? s.keys = none →
        emulate s rnd = Outcome.ok s))) ∧
    (∀ (s : Chip8) (rnd : Nat) (t : Chip8), emulate s rnd = Outcome.ok t → t.pc = s.pc →
      decode (opcodeAt s) = Instr.ifx0a ∨ decode (opcodeAt s) = Instr.i1nnn ∨
      decode (opcodeAt s) = Instr.i2nnn ∨ decode (opcodeAt s) = Instr.ibnnn ∨
      decode (opcodeAt s) = Instr.i00ee) :=
  ⟨fun s rnd hpc hrel h1 h3 h4 hrange =>
      emulate_fx0a_release s rnd hpc hrel h1 h3 h4 hrange,
   fun s rnd t h hpcs => emulate_ok_pc_stationary s rnd t h hpcs⟩

/-- Witness for the amended C8: the fresh engine with opcode F00A at
0x200, the release quirk on (the default), no latch and no key held
re-executes in place: the cycle returns to exactly the same state. -/
theorem fx0a_release_blocking_amended_witness :
    emulate { Chip8.new with
      memory := fun a => if a = 0x200 then 0xF0 else if a = 0x201 then 0x0A else
        Chip8.new.memory a } 0 =
    Outcome.ok { Chip8.new with
      memory := fun a => if a = 0x200 then 0xF0 else if a = 0x201 then 0x0A else
        Chip8.new.memory a } :=
  (fx0a_release_blocking_amended.1 { Chip8.new with
      memory := fun a => if a = 0x200 then 0xF0 else if a = 0x201 then 0x0A else
        Chip8.new.memory a } 0 (by decide) rfl (by decide) (by decide) (by decide)
      (fun k hk => Option.noConfusion hk)).2.2.2 rfl rfl

/-! The draw characterization: pixels are written at most once per
DXYN call, so the framebuffer after a draw is the pointwise XOR with
the toggle mask and the collision flag tests the incoming framebuffer. -/

theorem pix_col_ne (xPos wy : Nat) {c c' : Nat} (hc : c < 8) (hc' : c' < 8)
    (hne : c ≠ c') :
    (xPos + c) % 64 + 64 * wy ≠ (xPos + c') % 64 + 64 * wy := by
  omega

theorem pix_row_ne (x1 x2 wy wy' : Nat) (h : wy ≠ wy') :
    x1 % 64 + 64 * wy ≠ x2 % 64 + 64 * wy' := by
  omega

theorem colColl_congr (clip : Bool) (xPos wy sb : Nat) (cs : List Nat)
    (fb fb' : Nat → Bool)
    (h : ∀ c ∈ cs, fb ((xPos + c) % 64 + 64 * wy) = fb' ((xPos + c) % 64 + 64 * wy)) :
    colColl clip xPos wy sb cs fb = colColl clip xPos wy sb cs fb' := by
  induction cs with
  | nil => rfl
  | cons c rest ih =>
    simp only [colColl, List.any_cons] at *
    rw [h c (List.mem_cons_self c rest),
      ih fun c hm => h c (List.mem_cons_of_mem _ hm)]

theorem drawColsAux_spec (clip : Bool) (xPos wy sb : Nat) :
    ∀ (n c0 : Nat), c0 + n ≤ 8 → ∀ (fb : Nat → Bool) (flipped : Bool),
      drawColsAux clip xPos wy sb (List.range' c0 n) fb flipped =
        (fun j => xor (colHit clip xPos wy sb (List.range' c0 n) j) (fb j),
         flipped || colColl clip xPos wy sb (List.range' c0 n) fb) := by
  intro n
  induction n with
  | zero =>
    intro c0 _ fb flipped
    simp [drawColsAux, colHit, colColl, List.range']
  | succ n ih =>
    intro c0 hc fb flipped
    rw [List.range'_succ]
    simp only [drawColsAux]
    by_cases hbr : clip = true ∧ 64 ≤ xPos + c0
    · rw [if_pos hbr]
      have hcond : ∀ c ∈ c0 :: List.range' (c0 + 1) n,
          (!clip || decide (xPos + c < 64)) = false := by
        intro c hcmem
        have hge : c0 ≤ c := by
          rcases List.mem_cons.mp hcmem with rfl | hm
          · omega
          · exact le_of_lt (by have := (List.mem_range'_1.mp hm).1; omega)
        simp only [hbr.1, Bool.not_true, Bool.false_or, decide_eq_false_iff_not]
        omega
      have h1 : ∀ j, colHit clip xPos wy sb (c0 :: List.range' (c0 + 1) n) j = false := by
        intro j
        unfold colHit
        rw [List.any_eq_false]
        intro c hcmem
        simp [hcond c hcmem]
      have h2 : colColl clip xPos wy sb (c0 :: List.range' (c0 + 1) n) fb = false := by
        unfold colColl
        rw [List.any_eq_false]
        intro c hcmem
        simp [hcond c hcmem]
      simp [h1, h2]
    · rw [if_neg hbr]
      have hclipok : (!clip || decide (xPos + c0 < 64)) = true := by
        cases clip
        · simp
        · simp only [Bool.not_true, Bool.false_or, decide_eq_true_eq]
          by_contra hge
          exact hbr ⟨rfl, by omega⟩
      by_cases hbit : sb &&& (0x80 >>> c0) ≠ 0
      · rw [if_pos hbit]
        rw [ih (c0 + 1) (by omega)]
        have hbitb : (sb &&& (0x80 >>> c0) != 0) = true := by simpa using hbit
        have htail_ne : ∀ c ∈ List.range' (c0 + 1) n,
            (xPos + c) % 64 + 64 * wy ≠ (xPos + c0) % 64 + 64 * wy := by
          intro c hm
          have h1 := List.mem_range'_1.mp hm
          exact pix_col_ne xPos wy (by omega) (by omega) (by omega)
        have htail_idx : colHit clip xPos wy sb (List.range' (c0 + 1) n)
            ((xPos + c0) % 64 + 64 * wy) = false := by
          unfold colHit
          rw [List.any_eq_false]
          intro c hm
          simp [htail_ne c hm]
        simp only [Prod.mk.injEq]
        refine ⟨funext fun j => ?_, ?_⟩
        · by_cases hj : j = (xPos + c0) % 64 + 64 * wy
          · subst hj
            have hconsHit : colHit clip xPos wy sb (c0 :: List.range' (c0 + 1) n)
                ((xPos + c0) % 64 + 64 * wy) = true := by
              simp [colHit, List.any_cons, hclipok, hbitb]
            rw [Function.update_same, htail_idx, hconsHit]
            cases fb ((xPos + c0) % 64 + 64 * wy) <;> rfl
          · rw [Function.update_noteq hj]
            have hhead : ((xPos + c0) % 64 + 64 * wy == j) = false := by
              simp only [beq_eq_false_iff_ne, ne_eq]
              exact fun hh => hj hh.symm
            simp [colHit, List.any_cons, hhead]
        · have hcongr : colColl clip xPos wy sb (List.range' (c0 + 1) n)
              (Function.update fb ((xPos + c0) % 64 + 64 * wy)
                (!fb ((xPos + c0) % 64 + 64 * wy))) =
              colColl clip xPos wy sb (List.range' (c0 + 1) n) fb := by
            refine (colColl_congr _ _ _ _ _ _ _ fun c hm => ?_).symm
            rw [Function.update_noteq (htail_ne c hm)]
          rw [hcongr]
          simp [colColl, List.any_cons, hclipok, hbitb, Bool.or_assoc]
      · rw [if_neg hbit]
        rw [ih (c0 + 1) (by omega)]
        have hbitb : (sb &&& (0x80 >>> c0) != 0) = false := by
          simp only [bne_eq_false_iff_eq]
          omega
        simp [colHit, colColl, List.any_cons, hbitb]

theorem colHit_shape {clip : Bool} {xPos wy sb : Nat} {cs : List Nat} {j : Nat}
    (h : colHit clip xPos wy sb cs j = true) :
    ∃ c ∈ cs, j = (xPos + c) % 64 + 64 * wy := by
  unfold colHit at h
  rw [List.any_eq_true] at h
  obtain ⟨c, hm, hc⟩ := h
  simp only [Bool.and_eq_true, beq_iff_eq] at hc
  exact ⟨c, hm, hc.2.symm⟩

theorem rowColl_congr (clip : Bool) (xPos yPos index : Nat) (mem : Nat → Nat)
    (rs : List Nat) (fb fb' : Nat → Bool)
    (h : ∀ r ∈ rs, ∀ c, c < 8 →
      fb ((xPos + c) % 64 + 64 * ((yPos + r) % 32)) =
        fb' ((xPos + c) % 64 + 64 * ((yPos + r) % 32))) :
    rowColl clip xPos yPos index mem rs fb = rowColl clip xPos yPos index mem rs fb' := by
  induction rs with
  | nil => rfl
  | cons r rest ih =>
    simp only [rowColl, List.any_cons] at *
    rw [colColl_congr clip xPos ((yPos + r) % 32) (mem (index + r)) (List.range 8) fb fb'
        fun c hm => h r (List.mem_cons_self r rest) c (List.mem_range.mp hm),
      ih fun r hm c hc => h r (List.mem_cons_of_mem _ hm) c hc]

theorem drawRowsAux_spec (clip : Bool) (xPos yPos index : Nat) (mem : Nat → Nat) :
    ∀ (n r0 : Nat), r0 + n ≤ 16 →
      (∀ r ∈ List.range' r0 n, index + r < 4096) →
      ∀ (fb : Nat → Bool) (flipped : Bool),
        drawRowsAux clip xPos yPos index mem (List.range' r0 n) fb flipped =
          some (fun j => xor (rowHit clip xPos yPos index mem (List.range' r0 n) j) (fb j),
            flipped || rowColl clip xPos yPos index mem (List.range' r0 n) fb) := by
  intro n
  induction n with
  | zero =>
    intro r0 _ _ fb flipped
    simp [drawRowsAux, rowHit, rowColl, List.range']
  | succ n ih =>
    intro r0 hr hmem fb flipped
    rw [List.range'_succ]
    simp only [drawRowsAux]
    have hm0 : index + r0 < 4096 := by
      refine hmem r0 (List.mem_range'_1.mpr ?_)
      omega
    rw [if_pos hm0]
    by_cases hbr : clip = true ∧ 32 ≤ yPos + r0
    · rw [if_pos hbr]
      have hcond : ∀ r ∈ r0 :: List.range' (r0 + 1) n,
          (!clip || decide (yPos + r < 32)) = false := by
        intro r hrmem
        have hge : r0 ≤ r := by
          rcases List.mem_cons.mp hrmem with rfl | hm
          · omega
          · exact le_of_lt (by have := (List.mem_range'_1.mp hm).1; omega)
        simp only [hbr.1, Bool.not_true, Bool.false_or, decide_eq_false_iff_not]
        omega
      have h1 : ∀ j, rowHit clip xPos yPos index mem (r0 :: List.range' (r0 + 1) n) j =
          false := by
        intro j
        unfold rowHit
        rw [List.any_eq_false]
        intro r hrmem
        simp [hcond r hrmem]
      have h2 : rowColl clip xPos yPos index mem (r0 :: List.range' (r0 + 1) n) fb =
          false := by
        unfold rowColl
        rw [List.any_eq_false]
        intro r hrmem
        simp [hcond r hrmem]
      simp [h1, h2]
    · rw [if_neg hbr]
      have hrowok : (!clip || decide (yPos + r0 < 32)) = true := by
        cases clip
        · simp
        · simp only [Bool.not_true, Bool.false_or, decide_eq_true_eq]
          by_contra hge
          exact hbr ⟨rfl, by omega⟩
      have hcols : drawColsAux clip xPos ((yPos + r0) % 32) (mem (index + r0))
          (List.range 8) fb flipped =
          (fun j => xor (colHit clip xPos ((yPos + r0) % 32) (mem (index + r0))
            (List.range 8) j) (fb j),
           flipped || colColl clip xPos ((yPos + r0) % 32) (mem (index + r0))
            (List.range 8) fb) := by
        rw [List.range_eq_range']
        exact drawColsAux_spec clip xPos ((yPos + r0) % 32) (mem (index + r0)) 8 0
          (by omega) fb flipped
      rw [hcols]
      rw [ih (r0 + 1) (by omega)
        (fun r hm => hmem r (by rw [List.range'_succ]; exact List.mem_cons_of_mem _ hm))]
      have hdisj : ∀ j, colHit clip xPos ((yPos + r0) % 32) (mem (index + r0))
          (List.range 8) j = true →
          rowHit clip xPos yPos index mem (List.range' (r0 + 1) n) j = false := by
        intro j h0
        obtain ⟨c0, hc0m, hc0j⟩ := colHit_shape h0
        have hc08 : c0 < 8 := List.mem_range.mp hc0m
        unfold rowHit
        rw [List.any_eq_false]
        intro r hrm
        obtain ⟨hr1, hr2⟩ := List.mem_range'_1.mp hrm
        have hch : colHit clip xPos ((yPos + r) % 32) (mem (index + r))
            (List.range 8) j = false := by
          by_contra hch
          rw [Bool.not_eq_false] at hch
          obtain ⟨c, hcm, hcj⟩ := colHit_shape hch
          have hwy : (yPos + r0) % 32 ≠ (yPos + r) % 32 := by omega
          exact pix_row_ne (xPos + c0) (xPos + c) ((yPos + r0) % 32) ((yPos + r) % 32)
            hwy (hc0j.symm.trans hcj)
        simp [hch]
      have hH0p : ∀ r ∈ List.range' (r0 + 1) n, ∀ c, c < 8 →
          colHit clip xPos ((yPos + r0) % 32) (mem (index + r0)) (List.range 8)
            ((xPos + c) % 64 + 64 * ((yPos + r) % 32)) = false := by
        intro r hrm c hc
        obtain ⟨hr1, hr2⟩ := List.mem_range'_1.mp hrm
        by_contra hch
        rw [Bool.not_eq_false] at hch
        obtain ⟨c0, hc0m, hc0j⟩ := colHit_shape hch
        have hwy : (yPos + r0) % 32 ≠ (yPos + r) % 32 := by omega
        exact pix_row_ne (xPos + c0) (xPos + c) ((yPos + r0) % 32) ((yPos + r) % 32) hwy
          hc0j.symm
      have hcongr : rowColl clip xPos yPos index mem (List.range' (r0 + 1) n)
          (fun j => xor (colHit clip xPos ((yPos + r0) % 32) (mem (index + r0))
            (List.range 8) j) (fb j)) =
          rowColl clip xPos yPos index mem (List.range' (r0 + 1) n) fb := by
        refine rowColl_congr clip xPos yPos index mem _ _ _ fun r hrm c hc => ?_
        rw [hH0p r hrm c hc, Bool.false_xor]
      simp only [Prod.mk.injEq, Option.some.injEq]
      refine ⟨funext fun j => ?_, ?_⟩
      · have hcons : rowHit clip xPos yPos index mem (r0 :: List.range' (r0 + 1) n) j =
            (colHit clip xPos ((yPos + r0) % 32) (mem (index + r0)) (List.range 8) j ||
              rowHit clip xPos yPos index mem (List.range' (r0 + 1) n) j) := by
          simp [rowHit, List.any_cons, hrowok]
        rw [hcons]
        cases h0 : colHit clip xPos ((yPos + r0) % 32) (mem (index + r0))
            (List.range 8) j
        · simp
        · rw [hdisj j h0]
          cases fb j <;> rfl
      · rw [hcongr]
        have hconsc : rowColl clip xPos yPos index mem (r0 :: List.range' (r0 + 1) n) fb =
            (colColl clip xPos ((yPos + r0) % 32) (mem (index + r0)) (List.range 8) fb ||
              rowColl clip xPos yPos index mem (List.range' (r0 + 1) n) fb) := by
          simp [rowColl, List.any_cons, hrowok]
        rw [hconsc, Bool.or_assoc]

theorem op_dxyn_spec (s : Chip8) (op : Nat)
    (hmem : ∀ r, r < nib4 op → s.index + r < 4096) :
    op_dxyn s op = some { s with
      framebuffer := fun j => xor (spriteHit s op j) (s.framebuffer j)
      registers := Function.update s.registers 0xF
        (if spriteColl s op then 1 else 0) } := by
  unfold op_dxyn
  have hrows := drawRowsAux_spec s.quirks.clipping (s.registers (nib2 op) % 64)
    (s.registers (nib3 op) % 32) s.index s.memory (nib4 op) 0
    (by have : nib4 op ≤ 0xF := Nat.and_le_right; omega)
    (fun r hm => hmem r (by have := (List.mem_range'_1.mp hm).2; omega))
    s.framebuffer false
  rw [List.range_eq_range' (nib4 op), hrows]
  simp only [Bool.false_or]
  unfold spriteHit spriteColl
  rw [List.range_eq_range' (nib4 op)]

theorem spriteColl_blank (s : Chip8) (op : Nat)
    (hblank : ∀ j, s.framebuffer j = false) : spriteColl s op = false := by
  unfold spriteColl rowColl
  rw [List.any_eq_false]
  intro r _
  have hc : colColl s.quirks.clipping (s.registers (nib2 op) % 64)
      ((s.registers (nib3 op) % 32 + r) % 32) (s.memory (s.index + r))
      (List.range 8) s.framebuffer = false := by
    unfold colColl
    rw [List.any_eq_false]
    intro c _
    simp [hblank]
  rw [Bool.and_eq_true]
  rintro ⟨-, hC⟩
  rw [hc] at hC
  exact Bool.noConfusion hC

theorem spriteHit_update_vf (s : Chip8) (op v : Nat) (fb' : Nat → Bool)
    (hx : nib2 op ≠ 0xF) (hy : nib3 op ≠ 0xF) (j : Nat) :
    spriteHit { s with registers := Function.update s.registers 0xF v, framebuffer := fb' } op j = spriteHit s op j := by
  simp only [spriteHit]
  rw [Function.update_noteq hx, Function.update_noteq hy]

theorem spriteColl_update_vf (s : Chip8) (op v : Nat) (fb' : Nat → Bool)
    (hx : nib2 op ≠ 0xF) (hy : nib3 op ≠ 0xF) :
    spriteColl { s with registers := Function.update s.registers 0xF v, framebuffer := fb' } op =
      rowColl s.quirks.clipping (s.registers (nib2 op) % 64)
        (s.registers (nib3 op) % 32) s.index s.memory (List.range (nib4 op)) fb' := by
  simp only [spriteColl]
  rw [Function.update_noteq hx, Function.update_noteq hy]

theorem rowColl_of_hit (clip : Bool) (xPos yPos index : Nat) (mem : Nat → Nat)
    (rs : List Nat) (fb : Nat → Bool) (j : Nat)
    (hhit : rowHit clip xPos yPos index mem rs j = true) (hfb : fb j = true) :
    rowColl clip xPos yPos index mem rs fb = true := by
  unfold rowHit at hhit
  rw [List.any_eq_true] at hhit
  obtain ⟨r, hrm, hr⟩ := hhit
  rw [Bool.and_eq_true] at hr
  obtain ⟨hrok, hcol⟩ := hr
  unfold colHit at hcol
  rw [List.any_eq_true] at hcol
  obtain ⟨c, hcm, hc⟩ := hcol
  simp only [Bool.and_eq_true, beq_iff_eq] at hc
  unfold rowColl
  rw [List.any_eq_true]
  refine ⟨r, hrm, ?_⟩
  rw [Bool.and_eq_true]
  refine ⟨hrok, ?_⟩
  unfold colColl
  rw [List.any_eq_true]
  refine ⟨c, hcm, ?_⟩
  rw [Bool.and_eq_true, Bool.and_eq_true]
  exact ⟨⟨hc.1.1, hc.1.2⟩, by rw [hc.2, hfb]⟩

/-- Claim C7: for a DXYN draw whose sprite rows lie inside memory, the
final VF is 1 exactly when some surviving sprite bit was XORed onto a
pixel that was set (each pixel is toggled at most once per draw, so the
set-at-toggle-time condition is the set-before-the-draw condition, and
one collision forces VF = 1 no matter what later bits do); the
framebuffer ends as the pointwise XOR with the toggle mask.
Consequently drawing a sprite that toggles at least one pixel twice at
the same position (position and sprite registers distinct from VF) on a
blank display gives VF = 0 after the first draw and VF = 1 after the
second, with every pixel cleared. -/
theorem dxyn_collision_flag (s : Chip8) (op : Nat)
    (hmem : ∀ r, r < nib4 op → s.index + r < 4096) :
    (∀ t, op_dxyn s op = some t →
      (t.registers 0xF = 1 ↔ spriteColl s op = true) ∧
      (t.registers 0xF = 0 ↔ spriteColl s op = false) ∧
      (∀ j, t.framebuffer j = xor (spriteHit s op j) (s.framebuffer j))) ∧
    ((∀ j, s.framebuffer j = false) → nib2 op ≠ 0xF → nib3 op ≠ 0xF →
      (∃ j, spriteHit s op j = true) →
      ∃ t1 t2, op_dxyn s op = some t1 ∧ t1.registers 0xF = 0 ∧
        op_dxyn t1 op = some t2 ∧ t2.registers 0xF = 1 ∧
        (∀ j, t2.framebuffer j = false)) := by
  constructor
  · intro t ht
    rw [op_dxyn_spec s op hmem] at ht
    injection ht with ht'
    subst ht'
    refine ⟨?_, ?_, fun j => rfl⟩
    · simp only [Function.update_same]
      cases hC : spriteColl s op <;> simp [hC]
    · simp only [Function.update_same]
      cases hC : spriteColl s op <;> simp [hC]
  · intro hblank hx hy hnz
    have hC1 : spriteColl s op = false := spriteColl_blank s op hblank
    have h1 := op_dxyn_spec s op hmem
    refine ⟨_, _, h1, ?_, op_dxyn_spec _ op hmem, ?_, ?_⟩
    · simp [Function.update_same, hC1]
    · have hc2 : spriteColl { s with
          framebuffer := fun j => xor (spriteHit s op j) (s.framebuffer j)
          registers := Function.update s.registers 0xF
            (if spriteColl s op then 1 else 0) } op = true := by
        rw [spriteColl_update_vf s op _ _ hx hy]
        obtain ⟨j, hj⟩ := hnz
        refine rowColl_of_hit _ _ _ _ _ _ _ j hj ?_
        show xor (spriteHit s op j) (s.framebuffer j) = true
        rw [hj, hblank j]
        rfl
      simp [Function.update_same, hc2]
    · intro j
      simp only [spriteHit_update_vf s op _ _ hx hy, hblank]
      cases spriteHit s op j <;> rfl

/-- Witness for C7: drawing the font glyph 0 (5 rows at index 0) at
position (V0, V1) = (0, 0) on the fresh blank engine: first draw VF =
0, second draw VF = 1 and a cleared display. -/
theorem dxyn_collision_flag_witness :
    ∃ t1 t2, op_dxyn Chip8.new 0xD015 = some t1 ∧ t1.registers 0xF = 0 ∧
      op_dxyn t1 0xD015 = some t2 ∧ t2.registers 0xF = 1 ∧
      (∀ j, t2.framebuffer j = false) :=
  (dxyn_collision_flag Chip8.new 0xD015 (by decide)).2 (fun _ => rfl) (by decide)
    (by decide) ⟨0, by rfl⟩
